import Mathlib

/-!
Verification development for the BubbleLab platform's flow-script static
analysis core (BubbleParser / BubbleScript).  The TypeScript sources under
scrutiny are shallowly embedded below: pure functions become Lean functions,
the AST is an inductive datatype mirroring the TSESTree fragment the parser
inspects, stateful traversals thread their state explicitly, and fallible
code returns Except/Option.  Machine arithmetic (the FNV-1a hash) is done on
Nat with explicit reduction modulo 2^32.
-/

namespace BubbleLab

/-- A source location, mirroring the `{startLine, startCol, endLine, endCol}`
records the parser builds from TSESTree `loc` data (1-based lines, 0-based
columns). -/
structure Loc where
  startLine : Nat
  startCol : Nat
  endLine : Nat
  endCol : Nat
deriving Repr, DecidableEq

/-! ## String helpers

Executable counterparts of the JavaScript string operations used by the
source (`trim`, `startsWith`, `endsWith`, `includes`, splitting on
newlines), implemented over the character list of the string so that all of
them evaluate inside the kernel.  JavaScript `\s` is modelled by the common
ASCII whitespace characters. -/

/-- Rebuild a string from its characters. -/
def ofCh (cs : List Char) : String := String.mk cs

/-- ASCII whitespace, modelling JavaScript `\s` on the inputs at hand. -/
def isWS (c : Char) : Bool :=
  c == ' ' || c == '\t' || c == '\n' || c == '\r' || c == '\x0b' || c == '\x0c'

/-- Does the first character list start with the second? -/
def chStarts : List Char → List Char → Bool
  | _, [] => true
  | [], _ :: _ => false
  | c :: cs, p :: ps => c == p && chStarts cs ps

/-- `String.prototype.startsWith`. -/
def sStarts (s pat : String) : Bool := chStarts s.data pat.data

/-- `String.prototype.endsWith`. -/
def sEnds (s pat : String) : Bool := chStarts s.data.reverse pat.data.reverse

/-- Substring occurrence over character lists. -/
def chContains : List Char → List Char → Bool
  | [], pat => pat.isEmpty
  | c :: rest, pat => chStarts (c :: rest) pat || chContains rest pat

/-- Substring test, modelling JavaScript `String.prototype.includes`. -/
def strContains (s pat : String) : Bool := chContains s.data pat.data

/-- `String.prototype.trim`. -/
def sTrim (s : String) : String :=
  ofCh (((s.data.dropWhile isWS).reverse.dropWhile isWS).reverse)

/-- Leading-whitespace strip, modelling a `\s*` prefix match. -/
def dropLeadWS (s : String) : String := ofCh (s.data.dropWhile isWS)

/-- Trailing-whitespace strip, modelling a `\s*$` suffix match. -/
def dropTrailWS (s : String) : String :=
  ofCh ((s.data.reverse.dropWhile isWS).reverse)

/-- Drop the first `n` characters. -/
def sDrop (s : String) (n : Nat) : String := ofCh (s.data.drop n)

/-- Drop the last `n` characters. -/
def sDropRight (s : String) (n : Nat) : String :=
  ofCh ((s.data.reverse.drop n).reverse)

/-- Split on newline characters (`String.prototype.split('\n')`). -/
def chSplitNL (cs : List Char) (cur : List Char) : List String :=
  match cs with
  | [] => [ofCh cur.reverse]
  | c :: rest =>
    if c == '\n' then ofCh cur.reverse :: chSplitNL rest []
    else chSplitNL rest (c :: cur)

/-- Split a string on newlines. -/
def splitLines (s : String) : List String := chSplitNL s.data []

/-- Join with a separator (`Array.prototype.join`). -/
def sJoin (sep : String) : List String → String
  | [] => ""
  | [x] => x
  | x :: rest => x ++ sep ++ sJoin sep rest

/-! ## Comment extraction (`BubbleParser.extractCommentForNode`)

The source scans backwards from the line above the node, skipping blank
lines until it finds comment lines, collecting a contiguous run of comment
lines, and stopping at a blank line (once the run started) or at code.  The
collected run is then cleaned: block comments lose their markers and
per-line `*` prefixes, single-line comments lose their leading slashes, and
the lines are joined with single spaces. -/

/-- The (trimmed) content of 1-based line `i`; out-of-range lines behave as
blank, mirroring `lines[i-1]?.trim()` with an undefined access being falsy. -/
def getLineAt (lines : List String) (i : Nat) : String :=
  sTrim ((lines.get? (i - 1)).getD "")

/-- The backwards scan of `extractCommentForNode`: from `currentLine`
downwards to line 1, returning the collected comment lines (top to bottom,
the source builds this with `unshift`) and the `isBlockComment` flag. -/
def collectCommentLines : Nat → List String → List String → Bool →
    List String × Bool
  | 0, _, acc, isB => (acc, isB)
  | n + 1, lines, acc, isB =>
    let l := getLineAt lines (n + 1)
    if l = "" then
      if acc ≠ [] then (acc, isB) else collectCommentLines n lines acc isB
    else if sStarts l "//" then
      collectCommentLines n lines (l :: acc) isB
    else if sStarts l "*" || sStarts l "/*" then
      collectCommentLines n lines (l :: acc) true
    else if sEnds l "*/" then
      collectCommentLines n lines (l :: acc) true
    else
      (acc, isB)

/-- Strip a leading `/*` or `/**` marker plus following whitespace,
modelling `.replace(/^\/\*\*?\s*\/, '')` applied to the joined comment. -/
def stripBlockOpen (s : String) : String :=
  if sStarts s "/*" then
    let s1 := sDrop s 2
    let s2 := if sStarts s1 "*" then sDrop s1 1 else s1
    dropLeadWS s2
  else s

/-- Strip a trailing `*/` marker plus surrounding whitespace, modelling
`.replace(/\s*\*\/\s*$/, '')`. -/
def stripBlockClose (s : String) : String :=
  let t := dropTrailWS s
  if sEnds t "*/" then dropTrailWS (sDropRight t 2) else s

/-- Per-line cleaning inside a block comment: remove leading whitespace, a
`*`, and one optional whitespace character, then trim (the source's
`.replace(/^\s*\*\s?/, '').trim()`). -/
def cleanBlockLine (l : String) : String :=
  let w := dropLeadWS l
  if sStarts w "*" then
    let r := sDrop w 1
    let r2 := match r.data with
      | c :: _ => if isWS c then sDrop r 1 else r
      | [] => r
    sTrim r2
  else sTrim l

/-- Per-line cleaning of a `//` comment line: remove the slashes and one
optional whitespace character, then trim (`.replace(/^\/\/\s?/, '').trim()`). -/
def cleanSlashLine (l : String) : String :=
  if sStarts l "//" then
    let r := sDrop l 2
    let r2 := match r.data with
      | c :: _ => if isWS c then sDrop r 1 else r
      | [] => r
    sTrim r2
  else sTrim l

/-- Clean a collected block comment: strip the open/close markers from the
joined text, clean each line, drop empties, join with single spaces. -/
def cleanBlockComment (commentLines : List String) : String :=
  let full := sJoin "\n" commentLines
  let noOpen := stripBlockOpen full
  let noClose := stripBlockClose noOpen
  sTrim (sJoin " "
    (((splitLines noClose).map cleanBlockLine).filter (fun l => l ≠ "")))

/-- Clean a collected run of `//` comment lines. -/
def cleanSlashComment (commentLines : List String) : String :=
  let full := sJoin "\n" commentLines
  sTrim (sJoin " "
    (((splitLines full).map cleanSlashLine).filter (fun l => l ≠ "")))

/-- `BubbleParser.extractCommentForNode`, with the script given as its list
of lines and the node as its 1-based start line.  Returns the cleaned
description or `none` (the source returns `undefined` when the node has no
line, when no comment lines were collected, or when cleaning left nothing). -/
def extractCommentForNode (scriptLines : List String) (nodeLine : Nat) :
    Option String :=
  if nodeLine = 0 then none
  else
    let (commentLines, isB) := collectCommentLines (nodeLine - 1) scriptLines [] false
    if commentLines = [] then none
    else
      let cleaned :=
        if isB then cleanBlockComment commentLines else cleanSlashComment commentLines
      if cleaned = "" then none else some cleaned

/-! ## Lexical scope model (`@bubblelab/ts-scope-manager` data consumed by
`BubbleScript`)

`BubbleScript` consumes a `ScopeManager` whose scopes carry a block line
range, a list of variables, a type tag, and an `upper` (parent) pointer.
Scopes are embedded as an inductive value whose `upper` chain is nested; the
manager's flat `scopes` array is a list of such values.  A variable carries
the start lines of its `defs` and the type of its owning scope (the only
field of the back-pointer the source reads). -/

structure SVar where
  name : String
  id : Nat
  defLines : List Nat
  scopeType : String
deriving Repr, DecidableEq

inductive Scope where
  | mk (stype : String) (startLine endLine : Nat) (vars : List SVar)
      (upper : Option Scope)
deriving Repr

def Scope.stype : Scope → String
  | .mk t _ _ _ _ => t

def Scope.startLine : Scope → Nat
  | .mk _ s _ _ _ => s

def Scope.endLine : Scope → Nat
  | .mk _ _ e _ _ => e

def Scope.vars : Scope → List SVar
  | .mk _ _ _ vs _ => vs

def Scope.upper : Scope → Option Scope
  | .mk _ _ _ _ u => u

/-- The scope's own variables followed by all ancestor scopes' variables:
the source's "add variables from this scope, then walk up the parent
chain". -/
def Scope.chainVars : Scope → List SVar
  | .mk _ _ _ vs none => vs
  | .mk _ _ _ vs (some up) => vs ++ up.chainVars

/-- A `ScopeManager` is its flat list of scopes. -/
structure ScopeManager where
  scopes : List Scope

/-- Whether a scope's block line range contains a line
(`line >= scopeStart && line <= scopeEnd`). -/
def scopeContainsLine (sc : Scope) (line : Nat) : Bool :=
  decide (sc.startLine ≤ line) && decide (line ≤ sc.endLine)

/-- The built-in global names filtered out by `BubbleScript.isGlobalVariable`. -/
def globalNames : List String :=
  ["console", "Array", "Object", "String", "Number", "Boolean", "Date",
   "Math", "JSON", "Promise", "Error", "Function", "Symbol", "Map", "Set",
   "WeakMap", "WeakSet", "Proxy", "Reflect", "Buffer", "process", "global",
   "require", "__dirname", "__filename", "module", "exports", "Intl",
   "SymbolConstructor", "ArrayConstructor", "MapConstructor",
   "SetConstructor", "PromiseConstructor", "ErrorConstructor", "RegExp",
   "PropertyKey", "PropertyDescriptor", "Partial", "Required", "Readonly",
   "Pick", "Record", "Exclude", "Extract", "Omit", "NonNullable"]

/-- `BubbleScript.isGlobalVariable`: name in the built-in set, owning scope
of type global, or one of the name-pattern checks. -/
def isGlobalVariable (v : SVar) : Bool :=
  globalNames.contains v.name ||
  v.scopeType = "global" ||
  strContains v.name "Constructor" ||
  strContains v.name "Array" ||
  strContains v.name "Iterator" ||
  sStarts v.name "Disposable" ||
  sStarts v.name "Async" ||
  strContains v.name "Decorator"

/-- `BubbleScript.isVariableDeclaredBeforeLine`: variables with no
declaration info pass; otherwise some declaration must start at or before
the line. -/
def isVariableDeclaredBeforeLine (v : SVar) (line : Nat) : Bool :=
  v.defLines.isEmpty || v.defLines.any (fun d => decide (d ≤ line))

/-- `BubbleScript.getVarsForLine`: variables of every scope containing the
line together with all their ancestors' variables, minus globals/built-ins,
minus variables declared after the line.  (The source deduplicates through a
`Set` and sorts the containing scopes; neither affects membership, which is
what the stated properties quantify over.) -/
def getVarsForLine (sm : ScopeManager) (line : Nat) : List SVar :=
  (((sm.scopes.filter (fun sc => scopeContainsLine sc line)).flatMap
      Scope.chainVars).filter (fun v => !isGlobalVariable v)).filter
    (fun v => isVariableDeclaredBeforeLine v line)

end BubbleLab

namespace BubbleLab

/-! ## JSON values

`getPayloadJsonSchema` and the default harvesting build untyped
`Record<string, unknown>` / JSON-safe values; both are embedded as one
inductive of JSON values.  JavaScript numbers are modelled as integers (all
numeric literals relevant to the claims are integral). -/

inductive Json where
  | null
  | bool (b : Bool)
  | num (n : Int)
  | str (s : String)
  | arr (elems : List Json)
  | obj (fields : List (String × Json))
deriving Repr


/-- Field lookup in a JSON object (`undefined` for non-objects). -/
def Json.lookup (j : Json) (key : String) : Option Json :=
  match j with
  | .obj fields => (fields.find? (fun f => f.1 = key)).map (·.2)
  | _ => none

/-! ## TypeScript type annotations (fragment inspected by
`tsTypeToJsonSchema` / `objectTypeToJsonSchema`) -/

/-- A property key as classified by the source: an `Identifier` key, a
string `Literal` key, or anything else (which the source skips). -/
inductive PropKey where
  | ik (name : String)
  | sk (s : String)
  | otherK
deriving Repr, DecidableEq

mutual

inductive TypeNode where
  | tsString
  | tsNumber
  | tsBoolean
  | tsNull
  | tsAny
  | tsUnknown
  | tsUndefined
  | tsLitStr (s : String)
  | tsLitNum (n : Int)
  | tsLitBool (b : Bool)
  | tsLitOther
  | tsArray (elem : TypeNode)
  | tsUnion (types : List TypeNode)
  | tsInter (types : List TypeNode)
  | tsTypeLit (members : List TypeMember)
  | tsIndexed (objName : Option String) (idxLit : Option String)
  | tsRef (name : Option String)
  | tsOther

/-- A member of a type literal or interface body.  `line` is the member's
1-based start line (used for preceding-comment descriptions). -/
inductive TypeMember where
  | propSig (key : PropKey) (optional : Bool) (ty : Option TypeNode) (line : Nat)
  | otherM

end

/-- A function parameter as inspected by `getPayloadJsonSchema` /
`getFirstParamIdentifierName`: an identifier (with optional type
annotation), an assignment pattern whose left side may be an identifier, a
rest element whose argument may be an identifier, or anything else. -/
inductive Param where
  | pIdent (name : String) (ty : Option TypeNode)
  | pAssign (leftName : Option String) (leftTy : Option TypeNode)
  | pRest (argName : Option String) (argTy : Option TypeNode)
  | pOther

/-! ## The embedded TSESTree fragment

One mutual inductive for expressions, statements and the auxiliary node
kinds the parser dispatches on.  Every constructor carries the node's raw
source text (`raw`, the source's `bubbleScript.substring(range)`) where the
parser reads it, and a `Loc` where the parser reads `node.loc`.  Node kinds
the parser never distinguishes are folded into `other*` constructors that
keep their child nodes (so the generic child walk of `visitNode` still
reaches them). -/

mutual

inductive Expr where
  | ident (name : String)
  | litStr (value : String) (raw : String)
  | litNum (value : Int) (raw : String)
  | litBool (value : Bool) (raw : String)
  | litNull (raw : String)
  | template (cooked : List String) (numExprs : Nat) (raw : String)
  | member (raw : String)
  | chainE (raw : String)
  | nonNull (inner : Expr) (raw : String)
  | arrayLit (elems : List Expr) (raw : String)
  | objectLit (props : List OProp) (raw : String)
  | newE (calleeName : Option String) (args : List Expr) (loc : Loc) (raw : String)
  | awaitE (arg : Expr) (raw : String)
  | callM (obj : Expr) (propName : String) (args : List Expr) (raw : String)
  | callOther (callee : Expr) (args : List Expr) (raw : String)
  | arrowE (params : List Param) (body : FnBody) (loc : Loc) (raw : String)
  | funcE (params : List Param) (body : List Stmt) (raw : String)
  | condE (t c a : Expr) (raw : String)
  | binE (l r : Expr) (raw : String)
  | unaryE (op : String) (arg : Expr) (raw : String)
  | otherE (children : List Expr) (raw : String)

/-- An arrow-function body: a concise expression body or a block. -/
inductive FnBody where
  | concise (e : Expr)
  | block (stmts : List Stmt)

/-- An object-literal property: a keyed property or a spread element. -/
inductive OProp where
  | prop (key : PropKey) (value : Expr)
  | spreadP (arg : Expr)

/-- An `ObjectPattern` property as inspected by
`extractPayloadDefaultsFromHandle`: a property whose value is an
`AssignmentPattern` (carrying the default expression), a property without a
default, or anything else. -/
inductive DProp where
  | dprop (key : PropKey) (deflt : Expr)
  | dplain (key : PropKey)
  | dOther

inductive Pat where
  | identP (name : String)
  | objectP (props : List DProp)
  | otherP

inductive Declarator where
  | mk (id : Pat) (init : Option Expr)

inductive ClassMember where
  | methodDef (name : String) (isStatic : Bool) (kind : String)
      (params : List Param) (body : List Stmt) (loc : Loc) (bodyStartLine : Nat)
  | propertyDef (pname : String) (value : Option Expr) (loc : Loc)
  | otherMember

inductive Stmt where
  | varDecl (decls : List Declarator) (loc : Loc) (raw : String)
  | exprStmt (e : Expr) (loc : Loc) (raw : String)
  | retStmt (arg : Option Expr) (loc : Loc) (raw : String)
  | ifS (test : Expr) (cons : Stmt) (alt : Option Stmt) (loc : Loc) (raw : String)
  | forS (ini : Option Expr) (test : Option Expr) (update : Option Expr)
      (body : Stmt) (loc : Loc) (raw : String)
  | forInS (leftRaw : String) (right : Expr) (body : Stmt) (loc : Loc) (raw : String)
  | forOfS (leftRaw : String) (right : Expr) (body : Stmt) (loc : Loc) (raw : String)
  | whileS (test : Expr) (body : Stmt) (loc : Loc) (raw : String)
  | tryS (blk : List Stmt) (handler : Option (List Stmt)) (loc : Loc) (raw : String)
  | blockS (body : List Stmt) (loc : Loc) (raw : String)
  | classS (exported : Bool) (cname : Option String) (superName : Option String)
      (superTypeArgs : List TypeNode) (members : List ClassMember) (loc : Loc)
      (raw : String)
  | funcS (exported : Bool) (fname : String) (params : List Param)
      (body : List Stmt) (loc : Loc) (raw : String)
  | ifaceS (exported : Bool) (iname : String) (members : List TypeMember)
      (loc : Loc) (raw : String)
  | aliasS (exported : Bool) (aname : String) (ty : TypeNode) (loc : Loc)
      (raw : String)
  | otherS (children : List Stmt) (loc : Loc) (raw : String)

end

/-- A program is its top-level statement list. -/
structure Program where
  body : List Stmt

/-- The raw source text of an expression (the source's
`bubbleScript.substring(expression.range[0], expression.range[1])`; for an
identifier that substring is the identifier itself). -/
def exprRaw : Expr → String
  | .ident n => n
  | .litStr _ r => r
  | .litNum _ r => r
  | .litBool _ r => r
  | .litNull r => r
  | .template _ _ r => r
  | .member r => r
  | .chainE r => r
  | .nonNull _ r => r
  | .arrayLit _ r => r
  | .objectLit _ r => r
  | .newE _ _ _ r => r
  | .awaitE _ r => r
  | .callM _ _ _ r => r
  | .callOther _ _ r => r
  | .arrowE _ _ _ r => r
  | .funcE _ _ r => r
  | .condE _ _ _ r => r
  | .binE _ _ r => r
  | .unaryE _ _ r => r
  | .otherE _ r => r

/-- The raw source text of a statement. -/
def stmtRaw : Stmt → String
  | .varDecl _ _ r => r
  | .exprStmt _ _ r => r
  | .retStmt _ _ r => r
  | .ifS _ _ _ _ r => r
  | .forS _ _ _ _ _ r => r
  | .forInS _ _ _ _ r => r
  | .forOfS _ _ _ _ r => r
  | .whileS _ _ _ r => r
  | .tryS _ _ _ r => r
  | .blockS _ _ r => r
  | .classS _ _ _ _ _ _ r => r
  | .funcS _ _ _ _ _ r => r
  | .ifaceS _ _ _ _ r => r
  | .aliasS _ _ _ _ r => r
  | .otherS _ _ r => r

/-- The `loc` of a statement (`extractLocation`). -/
def stmtLoc : Stmt → Loc
  | .varDecl _ l _ => l
  | .exprStmt _ l _ => l
  | .retStmt _ l _ => l
  | .ifS _ _ _ l _ => l
  | .forS _ _ _ _ l _ => l
  | .forInS _ _ _ l _ => l
  | .forOfS _ _ _ l _ => l
  | .whileS _ _ l _ => l
  | .tryS _ _ l _ => l
  | .blockS _ l _ => l
  | .classS _ _ _ _ _ l _ => l
  | .funcS _ _ _ _ l _ => l
  | .ifaceS _ _ _ l _ => l
  | .aliasS _ _ _ l _ => l
  | .otherS _ l _ => l

end BubbleLab

namespace BubbleLab

/-! ## Bubble data (`ParsedBubbleWithInfo`, `BubbleParameter`) and the
registry class-name lookup consumed by `parseBubblesFromAST` -/

/-- One entry of the class-name lookup built by `buildClassNameLookup`. -/
structure BubbleInfo where
  bubbleName : String
  className : String
  nodeType : String
deriving Repr, DecidableEq

/-- One extracted constructor parameter.  `extractParameterValue` always
produces a string value in the embedded fragment (string literals keep the
unquoted literal, everything else keeps the raw source text).  Value-span
locations are not modelled (no stated property concerns them). -/
structure BubbleParam where
  name : String
  value : String
  ptype : String
  variableId : Option Nat
  source : String
deriving Repr, DecidableEq

/-- One located bubble instantiation (`ParsedBubbleWithInfo` minus the
dependency fields, which are attached in a later phase). -/
structure ParsedBubble where
  variableId : Int
  variableName : String
  bubbleName : String
  className : String
  parameters : List BubbleParam
  hasAwait : Bool
  hasActionCall : Bool
  nodeType : String
  location : Loc
  description : Option String
deriving Repr, DecidableEq

/-! ## Base-variable-name extraction and scope resolution for parameters -/

/-- First character of a JavaScript identifier (`[a-zA-Z_$]`). -/
def isIdentStart (c : Char) : Bool :=
  ('a' ≤ c && c ≤ 'z') || ('A' ≤ c && c ≤ 'Z') || c = '_' || c = '$'

/-- Subsequent character of a JavaScript identifier (`[a-zA-Z0-9_$]`). -/
def isIdentChar (c : Char) : Bool :=
  isIdentStart c || ('0' ≤ c && c ≤ '9')

/-- Longest identifier prefix of a character list, with the rest. -/
def takeIdent (cs : List Char) : Option (String × List Char) :=
  match cs with
  | [] => none
  | c :: rest =>
    if isIdentStart c then
      let tailPart := rest.takeWhile isIdentChar
      let restPart := rest.dropWhile isIdentChar
      some (String.mk (c :: tailPart), restPart)
    else none

/-- `BubbleParser.extractBaseVariableName`: the base identifier of
`prompts[i]` / `result.data` / `myVar`, or `none` when the trimmed text is
not of one of those three shapes. -/
def extractBaseVariableName (expression : String) : Option String :=
  let t := sTrim expression
  match takeIdent t.data with
  | some (idName, rest) =>
    match rest with
    | '[' :: _ => some idName
    | '.' :: _ => some idName
    | [] => some idName
    | _ => none
  | none => none

/-- A scope followed by its ancestor chain (the source's upward walk over
`scope.upper`). -/
def scopeChainList : Scope → List Scope
  | .mk t s e vs none => [Scope.mk t s e vs none]
  | .mk t s e vs (some up) => Scope.mk t s e vs (some up) :: scopeChainList up

/-- `BubbleParser.findVariableIdByName`: search every scope containing the
context line plus their ancestors for a variable of that name whose first
declaration starts at or before the context line; first hit wins.  (The
source deduplicates scopes through a `Set` of object references; revisiting
a scope cannot change the first hit, so the plain concatenation is
behaviourally equal.) -/
def findVariableIdByName (variableName : String) (contextLine : Nat)
    (sm : ScopeManager) : Option Nat :=
  ((((sm.scopes.filter (fun sc => scopeContainsLine sc contextLine)).flatMap
      scopeChainList).flatMap Scope.vars).find? (fun v =>
        v.name = variableName &&
        (match v.defLines.head? with
         | some d => decide (d ≤ contextLine)
         | none => false))).map (·.id)

/-- `BubbleParser.addVariableReferencesToParameters`: attach a resolved
variable id to every `variable`-typed parameter whose base identifier
resolves at the context node's start line; unresolved parameters are left
untouched. -/
def addVariableReferencesToParameters (parameters : List BubbleParam)
    (contextLine : Nat) (sm : ScopeManager) : List BubbleParam :=
  parameters.map fun param =>
    if param.ptype = "variable" then
      match extractBaseVariableName param.value with
      | some base =>
        match findVariableIdByName base contextLine sm with
        | some vid => { param with variableId := some vid }
        | none => param
      | none => param
    else param

/-! ## Parameter classification (`BubbleParser.extractParameterValue`) -/

/-- `BubbleParser.extractParameterValue`: classify a constructor-argument
expression into `(value, type)`.  Mirrors the source's sequential checks:
non-null-asserted member on `process.env` → env; member/optional chain →
env when the text starts with `process.env.`, else variable; identifier →
variable; literals → matching primitive (a `null` literal falls through to
unknown, as in the source); template literal → string; array/object literal
→ array/object; everything not in the source's `simpleTypes` list →
expression. -/
def extractParameterValue (e : Expr) : String × String :=
  let valueText := exprRaw e
  match e with
  | .nonNull inner _ =>
    (match inner with
     | .member mraw =>
       if sStarts mraw "process.env." then (valueText, "env")
       else (valueText, "expression")
     | _ => (valueText, "expression"))
  | .member r => if sStarts r "process.env." then (r, "env") else (r, "variable")
  | .chainE r => if sStarts r "process.env." then (r, "env") else (r, "variable")
  | .ident _ => (valueText, "variable")
  | .litStr v _ => (v, "string")
  | .litNum _ _ => (valueText, "number")
  | .litBool _ _ => (valueText, "boolean")
  | .litNull _ => (valueText, "unknown")
  | .template _ _ _ => (valueText, "string")
  | .arrayLit _ _ => (valueText, "array")
  | .objectLit _ _ => (valueText, "object")
  | _ => (valueText, "expression")

/-! ## Bubble extraction (`extractFromNewExpression`,
`extractBubbleFromExpression`) -/

/-- `BubbleParser.extractFromNewExpression`: recognize `new ClassName(args)`
against the registry lookup and extract its parameters (object-literal
properties, spread elements, or a single positional argument). -/
def extractFromNewExpression (calleeName : Option String) (args : List Expr)
    (loc : Loc) (lookup : List (String × BubbleInfo)) : Option ParsedBubble :=
  match calleeName with
  | none => none
  | some className =>
    match (lookup.find? (fun p => p.1 = className)).map (·.2) with
    | none => none
    | some info =>
      let parameters : List BubbleParam :=
        match args with
        | [] => []
        | firstArg :: _ =>
          match firstArg with
          | .objectLit props _ =>
            props.filterMap fun p =>
              match p with
              | .prop (.ik pname) value =>
                let (v, t) := extractParameterValue value
                some { name := pname, value := v, ptype := t,
                       variableId := none, source := "object-property" }
              | .prop _ _ => none
              | .spreadP arg =>
                let (v, t) := extractParameterValue arg
                let spreadName := match arg with
                  | .ident n => n
                  | _ => "spread"
                some { name := spreadName, value := v, ptype := t,
                       variableId := none, source := "spread" }
          | e =>
            let (v, t) := extractParameterValue e
            let argName := match e with
              | .ident n => n
              | _ => "arg0"
            [{ name := argName, value := v, ptype := t,
               variableId := none, source := "first-arg" }]
      some { variableId := -1, variableName := "", bubbleName := info.bubbleName,
             className := info.className, parameters := parameters,
             hasAwait := false, hasActionCall := false,
             nodeType := info.nodeType, location := loc, description := none }

/-- `BubbleParser.extractBubbleFromExpression`: recognize `new X(...)`,
`await <expr>` around it, and the `new X(...).action()` chain, setting the
`hasAwait` / `hasActionCall` flags. -/
def extractBubbleFromExpression (e : Expr)
    (lookup : List (String × BubbleInfo)) : Option ParsedBubble :=
  match e with
  | .awaitE arg _ =>
    match extractBubbleFromExpression arg lookup with
    | some inner => some { inner with hasAwait := true }
    | none => none
  | .newE c args loc _ => extractFromNewExpression c args loc lookup
  | .callM obj propName _ _ =>
    if propName = "action" then
      match obj with
      | .newE c args loc _ =>
        match extractFromNewExpression c args loc lookup with
        | some node => some { node with hasActionCall := true }
        | none => none
      | _ => none
    else none
  | _ => none

end BubbleLab

namespace BubbleLab

/-! ## Bubble location (`BubbleParser.visitNode`)

The source's `visitNode` recursively walks every AST node (generic child
walk over all node-valued properties) and applies four rules: named
variable-declaration bubbles, anonymous expression-statement bubbles,
anonymous arrow-concise-body bubbles, and anonymous return-statement
bubbles.  The walk is embedded as a depth-first worklist over a sum of
statement and expression nodes; intermediate wrapper nodes the rules never
match (declarators, object properties, class bodies, …) are flattened into
their parents' child lists, which preserves both the visit order of the
rule-relevant nodes and the set of nodes reached. -/

inductive ANode where
  | stmtN (s : Stmt)
  | exprN (e : Expr)

/-- Default expressts inside destructuring patterns (the only expression
children of a pattern the embedded fragment keeps). -/
def patChildren : Pat → List ANode
  | .objectP props =>
    props.filterMap fun p =>
      match p with
      | .dprop _ d => some (ANode.exprN d)
      | _ => none
  | _ => []

def declChildren : Declarator → List ANode
  | .mk pid ini =>
    patChildren pid ++ (match ini with
      | some e => [ANode.exprN e]
      | none => [])

def memberChildren : ClassMember → List ANode
  | .methodDef _ _ _ _ body _ _ => body.map ANode.stmtN
  | .propertyDef _ (some v) _ => [ANode.exprN v]
  | .propertyDef _ none _ => []
  | .otherMember => []

def fnBodyChildren : FnBody → List ANode
  | .concise e => [ANode.exprN e]
  | .block stmts => stmts.map ANode.stmtN

def opropChildren : OProp → List ANode
  | .prop _ v => [ANode.exprN v]
  | .spreadP a => [ANode.exprN a]

def exprChildren : Expr → List ANode
  | .ident _ => []
  | .litStr _ _ => []
  | .litNum _ _ => []
  | .litBool _ _ => []
  | .litNull _ => []
  | .template _ _ _ => []
  | .member _ => []
  | .chainE _ => []
  | .nonNull inner _ => [.exprN inner]
  | .arrayLit es _ => es.map .exprN
  | .objectLit ps _ => ps.flatMap opropChildren
  | .newE _ args _ _ => args.map .exprN
  | .awaitE a _ => [.exprN a]
  | .callM obj _ args _ => .exprN obj :: args.map .exprN
  | .callOther c args _ => .exprN c :: args.map .exprN
  | .arrowE _ body _ _ => fnBodyChildren body
  | .funcE _ body _ => body.map .stmtN
  | .condE t c a _ => [.exprN t, .exprN c, .exprN a]
  | .binE l r _ => [.exprN l, .exprN r]
  | .unaryE _ a _ => [.exprN a]
  | .otherE cs _ => cs.map .exprN

def stmtChildren : Stmt → List ANode
  | .varDecl decls _ _ => decls.flatMap declChildren
  | .exprStmt e _ _ => [.exprN e]
  | .retStmt a _ _ => a.toList.map .exprN
  | .ifS t c alt _ _ => .exprN t :: .stmtN c :: alt.toList.map .stmtN
  | .forS i t u b _ _ =>
    (i.toList ++ t.toList ++ u.toList).map .exprN ++ [.stmtN b]
  | .forInS _ r b _ _ => [.exprN r, .stmtN b]
  | .forOfS _ r b _ _ => [.exprN r, .stmtN b]
  | .whileS t b _ _ => [.exprN t, .stmtN b]
  | .tryS blk h _ _ => blk.map .stmtN ++ (h.getD []).map .stmtN
  | .blockS body _ _ => body.map .stmtN
  | .classS _ _ _ _ members _ _ => members.flatMap memberChildren
  | .funcS _ _ _ body _ _ => body.map .stmtN
  | .ifaceS _ _ _ _ _ => []
  | .aliasS _ _ _ _ _ => []
  | .otherS cs _ _ => cs.map .stmtN

def aNodeChildren : ANode → List ANode
  | .stmtN s => stmtChildren s
  | .exprN e => exprChildren e

/-- Absolute difference on Nat (JavaScript `Math.abs(a - b)`). -/
def natDist (a b : Nat) : Nat := max a b - min a b

/-- `BubbleParser.findVariableForBubble`: scan the scopes containing the
declaration line for a variable of the declared name whose first definition
starts within two lines of the declaration. -/
def findVariableForBubble (variableName : String) (line : Nat)
    (sm : ScopeManager) : Option SVar :=
  ((sm.scopes.filter (fun sc => scopeContainsLine sc line)).flatMap
    Scope.vars).find? fun v =>
      v.name = variableName &&
      (match v.defLines.head? with
       | some d => decide (natDist d line ≤ 2)
       | none => false)

/-- Record-style insertion `nodes[key] = bubble`: replace an existing key in
place, otherwise append. -/
def upsert (nodes : List (Int × ParsedBubble)) (key : Int) (b : ParsedBubble) :
    List (Int × ParsedBubble) :=
  if nodes.any (fun kb => kb.1 = key) then
    nodes.map (fun kb => if kb.1 = key then (key, b) else kb)
  else nodes ++ [(key, b)]

/-- Context threaded through the visit: the script's lines (for comment
descriptions), the registry class-name lookup, and the scope manager. -/
structure VisitCtx where
  scriptLines : List String
  lookup : List (String × BubbleInfo)
  sm : ScopeManager

/-- The anonymous-bubble insertion shared by the expression-statement,
arrow-concise-body and return-statement rules: synthetic name from the
current count of located bubbles, synthetic id `-(count + 1)`, optional
description, variable references resolved at the context line. -/
def insertAnonymousBubble (ctx : VisitCtx) (bn : ParsedBubble)
    (contextLine : Nat) (withDescription : Bool)
    (nodes : List (Int × ParsedBubble)) : List (Int × ParsedBubble) :=
  let synthetic := "_anonymous_" ++ bn.className ++ "_" ++ toString nodes.length
  let bn := { bn with variableName := synthetic }
  let bn :=
    if withDescription then
      match extractCommentForNode ctx.scriptLines contextLine with
      | some d => { bn with description := some d }
      | none => bn
    else bn
  let syntheticId : Int := -(Int.ofNat nodes.length + 1)
  let bn := { bn with
    variableId := syntheticId,
    parameters :=
      addVariableReferencesToParameters bn.parameters contextLine ctx.sm }
  upsert nodes syntheticId bn

/-- The named-bubble rule of `visitNode`, folded over the declarators of a
`VariableDeclaration`.  A located bubble whose declared name cannot be
resolved in the scope manager is a thrown error. -/
def visitDecls (ctx : VisitCtx) (loc : Loc) :
    List Declarator → List (Int × ParsedBubble) →
    Except String (List (Int × ParsedBubble))
  | [], nodes => .ok nodes
  | .mk pid ini :: rest, nodes =>
    match pid, ini with
    | .identP nameText, some ini =>
      (match extractBubbleFromExpression ini ctx.lookup with
       | some bn =>
         let bn := { bn with variableName := nameText }
         let bn := match extractCommentForNode ctx.scriptLines loc.startLine with
           | some d => { bn with description := some d }
           | none => bn
         (match findVariableForBubble nameText loc.startLine ctx.sm with
          | some v =>
            let bn := { bn with
              variableId := Int.ofNat v.id,
              parameters :=
                addVariableReferencesToParameters bn.parameters loc.startLine ctx.sm }
            visitDecls ctx loc rest (upsert nodes (Int.ofNat v.id) bn)
          | none =>
            .error ("Variable " ++ nameText ++ " not found in scope manager"))
       | none => visitDecls ctx loc rest nodes)
    | _, _ => visitDecls ctx loc rest nodes

/-- One step of `visitNode`: apply whichever of the four bubble rules
matches the node (the recursion into children is done by the worklist). -/
def visitOne (ctx : VisitCtx) (n : ANode) (nodes : List (Int × ParsedBubble)) :
    Except String (List (Int × ParsedBubble)) :=
  match n with
  | .stmtN (.varDecl decls loc _) => visitDecls ctx loc decls nodes
  | .stmtN (.exprStmt e loc _) =>
    match extractBubbleFromExpression e ctx.lookup with
    | some bn => .ok (insertAnonymousBubble ctx bn loc.startLine true nodes)
    | none => .ok nodes
  | .exprN (.arrowE _ (.concise ce) loc _) =>
    match extractBubbleFromExpression ce ctx.lookup with
    | some bn => .ok (insertAnonymousBubble ctx bn loc.startLine false nodes)
    | none => .ok nodes
  | .stmtN (.retStmt (some a) loc _) =>
    match extractBubbleFromExpression a ctx.lookup with
    | some bn => .ok (insertAnonymousBubble ctx bn loc.startLine true nodes)
    | none => .ok nodes
  | _ => .ok nodes

/-- The depth-first walk of `visitNode` as a worklist; children are pushed
in front, which reproduces the source's preorder traversal.  The fuel only
bounds the number of visited nodes: exhausting it is an error, so every
`.ok` result is a result of the unbounded traversal. -/
def visitList (ctx : VisitCtx) : Nat → List ANode →
    List (Int × ParsedBubble) → Except String (List (Int × ParsedBubble))
  | _, [], nodes => .ok nodes
  | 0, _ :: _, _ => .error "traversal fuel exhausted"
  | fuel + 1, n :: rest, nodes =>
    match visitOne ctx n nodes with
    | .ok nodes' => visitList ctx fuel (aNodeChildren n ++ rest) nodes'
    | .error e => .error e

/-- Visit an entire program. -/
def visitProgram (ctx : VisitCtx) (fuel : Nat) (prog : Program) :
    Except String (List (Int × ParsedBubble)) :=
  visitList ctx fuel (prog.body.map .stmtN) []

/-- The key order of `Object.entries` on the `nodes` record: non-negative
integer keys ascending first, then the remaining (negative) keys in
insertion order. -/
def insertAsc (kb : Int × ParsedBubble) :
    List (Int × ParsedBubble) → List (Int × ParsedBubble)
  | [] => [kb]
  | kb2 :: rest =>
    if kb.1 ≤ kb2.1 then kb :: kb2 :: rest else kb2 :: insertAsc kb rest

def sortAscByKey : List (Int × ParsedBubble) → List (Int × ParsedBubble)
  | [] => []
  | kb :: rest => insertAsc kb (sortAscByKey rest)

def entriesJS (nodes : List (Int × ParsedBubble)) : List (Int × ParsedBubble) :=
  sortAscByKey (nodes.filter (fun kb => decide (0 ≤ kb.1))) ++
    nodes.filter (fun kb => decide (kb.1 < 0))

end BubbleLab

namespace BubbleLab

/-! ## Handle entrypoint lookup (`findHandleFunctionNode`) -/

/-- The function node of the `handle` entrypoint: its parameters and its
body (`none` models an arrow concise body, which is not a `BlockStatement`). -/
structure HandleFn where
  params : List Param
  body : Option (List Stmt)

/-- `findHandleInClass`: the first `MethodDefinition` named `handle` with a
`FunctionExpression` value. -/
def findHandleInClass (members : List ClassMember) : Option HandleFn :=
  members.findSome? fun m =>
    match m with
    | .methodDef "handle" _ _ params body _ _ => some ⟨params, some body⟩
    | _ => none

/-- `findHandleFunctionNode`: top-level `handle` function declarations,
`handle` variable declarations holding an arrow/function expression, and
`handle` methods in classes; `export` wrappers are folded into the
`exported` flag since the source handles both identically. -/
def findHandleFunctionNode (prog : Program) : Option HandleFn :=
  prog.body.findSome? fun stmt =>
    match stmt with
    | .funcS _ "handle" params body _ _ => some ⟨params, some body⟩
    | .varDecl decls _ _ =>
      decls.findSome? fun d =>
        match d with
        | .mk (.identP "handle") (some (.arrowE params (.block stmts) _ _)) =>
          some ⟨params, some stmts⟩
        | .mk (.identP "handle") (some (.arrowE params (.concise _) _ _)) =>
          some ⟨params, none⟩
        | .mk (.identP "handle") (some (.funcE params body _)) =>
          some ⟨params, some body⟩
        | _ => none
    | .classS _ _ _ _ members _ _ => findHandleInClass members
    | _ => none

/-! ## Workflow tree (`buildWorkflowTree`,
`buildWorkflowNodeFromStatement`, `findBubbleInExpression`) -/

inductive WorkflowNode where
  | bubble (variableId : Int)
  | ifW (location : Loc) (condition : String) (children : List WorkflowNode)
      (elseBranch : Option (List WorkflowNode))
  | forW (location : Loc) (condition : Option String)
      (children : List WorkflowNode)
  | whileW (location : Loc) (condition : String) (children : List WorkflowNode)
  | tryCatchW (location : Loc) (children : List WorkflowNode)
      (catchBlock : Option (List WorkflowNode))
  | codeBlockW (location : Loc) (code : String) (children : List WorkflowNode)
deriving Repr

/-- `extractNewExpression`: peel `await` wrappers and member-call chains
down to the underlying `NewExpression`, returning its location. -/
def extractNewExpressionLoc : Expr → Option Loc
  | .awaitE arg _ => extractNewExpressionLoc arg
  | .callM obj _ _ _ => extractNewExpressionLoc obj
  | .newE _ _ loc _ => some loc
  | _ => none

/-- `findBubbleInExpression`: match the peeled `NewExpression` location
against each located bubble's recorded location (same start/end line, start
column within tolerance 5). -/
def findBubbleInExpression (e : Expr)
    (bubbleMap : List (Int × ParsedBubble)) : Option ParsedBubble :=
  match extractNewExpressionLoc e with
  | none => none
  | some nloc =>
    (bubbleMap.find? fun kb =>
      kb.2.location.startLine = nloc.startLine &&
      kb.2.location.endLine = nloc.endLine &&
      decide (natDist kb.2.location.startCol nloc.startCol ≤ 5)).map (·.2)

/-- The `VariableDeclaration` case of `buildWorkflowNodeFromStatement`:
first declarator whose declared name matches a located bubble's variable
name (map iteration order), else whose initializer matches by location. -/
def findBubbleForDecls (decls : List Declarator)
    (bubbleMap : List (Int × ParsedBubble)) : Option Int :=
  match decls with
  | [] => none
  | .mk (.identP nameText) (some ini) :: rest =>
    (match (bubbleMap.find? fun kb => kb.2.variableName = nameText) with
     | some kb => some kb.2.variableId
     | none =>
       match findBubbleInExpression ini bubbleMap with
       | some b => some b.variableId
       | none => findBubbleForDecls rest bubbleMap)
  | _ :: rest => findBubbleForDecls rest bubbleMap

/-- `buildWorkflowNodeFromStatement` and its helpers (`buildIfNode`,
`buildForNode`, `buildWhileNode`, `buildTryCatchNode`,
`buildCodeBlockNode`), fuelled: the fuel strictly decreases on every nested
statement, and exhaustion yields `none` (the source function itself never
returns null, so `none` only witnesses insufficient fuel and only ever
drops nodes). -/
def buildWorkflowNode : Nat → Stmt → List (Int × ParsedBubble) →
    Option WorkflowNode
  | 0, _, _ => none
  | fuel + 1, stmt, bubbleMap =>
    match stmt with
    | .ifS test cons alt loc _ =>
      let children := match cons with
        | .blockS body _ _ =>
          body.filterMap fun s => buildWorkflowNode fuel s bubbleMap
        | s => (buildWorkflowNode fuel s bubbleMap).toList
      let elseBranch : Option (List WorkflowNode) := match alt with
        | none => none
        | some (.blockS body _ _) =>
          some (body.filterMap fun s => buildWorkflowNode fuel s bubbleMap)
        | some s => some (buildWorkflowNode fuel s bubbleMap).toList
      some (.ifW loc (exprRaw test) children elseBranch)
    | .forS i t u body loc _ =>
      let condition :=
        sTrim (((i.map exprRaw).getD "") ++ "; " ++ ((t.map exprRaw).getD "") ++
          "; " ++ ((u.map exprRaw).getD ""))
      let children := match body with
        | .blockS b _ _ => b.filterMap fun s => buildWorkflowNode fuel s bubbleMap
        | s => (buildWorkflowNode fuel s bubbleMap).toList
      some (.forW loc (some condition) children)
    | .forInS leftRaw right body loc _ =>
      let condition := leftRaw ++ " in " ++ exprRaw right
      let children := match body with
        | .blockS b _ _ => b.filterMap fun s => buildWorkflowNode fuel s bubbleMap
        | s => (buildWorkflowNode fuel s bubbleMap).toList
      some (.forW loc (some condition) children)
    | .forOfS leftRaw right body loc _ =>
      let condition := leftRaw ++ " of " ++ exprRaw right
      let children := match body with
        | .blockS b _ _ => b.filterMap fun s => buildWorkflowNode fuel s bubbleMap
        | s => (buildWorkflowNode fuel s bubbleMap).toList
      some (.forW loc (some condition) children)
    | .whileS test body loc _ =>
      let children := match body with
        | .blockS b _ _ => b.filterMap fun s => buildWorkflowNode fuel s bubbleMap
        | s => (buildWorkflowNode fuel s bubbleMap).toList
      some (.whileW loc (exprRaw test) children)
    | .tryS blk handler loc _ =>
      let children := blk.filterMap fun s => buildWorkflowNode fuel s bubbleMap
      let catchBlock := handler.map fun h =>
        h.filterMap fun s => buildWorkflowNode fuel s bubbleMap
      some (.tryCatchW loc children catchBlock)
    | .varDecl decls loc raw =>
      (match findBubbleForDecls decls bubbleMap with
       | some vid => some (.bubble vid)
       | none => some (.codeBlockW loc raw []))
    | .exprStmt e loc raw =>
      (match findBubbleInExpression e bubbleMap with
       | some b => some (.bubble b.variableId)
       | none => some (.codeBlockW loc raw []))
    | .retStmt arg loc raw =>
      (match arg.bind (fun a => findBubbleInExpression a bubbleMap) with
       | some b => some (.bubble b.variableId)
       | none => some (.codeBlockW loc raw []))
    | .blockS body loc raw =>
      some (.codeBlockW loc raw
        (body.filterMap fun s => buildWorkflowNode fuel s bubbleMap))
    | s => some (.codeBlockW (stmtLoc s) (stmtRaw s) [])

/-- `buildWorkflowTree`: the root workflow nodes built from the `handle`
body statements (empty when there is no `handle` or its body is not a
block); the bubble map is consumed in `Object.entries` order. -/
def buildWorkflowRoot (fuel : Nat) (prog : Program)
    (bubbles : List (Int × ParsedBubble)) : List WorkflowNode :=
  match findHandleFunctionNode prog with
  | some h =>
    match h.body with
    | some stmts =>
      stmts.filterMap fun s => buildWorkflowNode fuel s (entriesJS bubbles)
    | none => []
  | none => []

mutual

/-- Collect the `variableId` of every `bubble` leaf of a workflow tree,
including `elseBranch` and `catchBlock` branches. -/
def collectWorkflowIds : WorkflowNode → List Int
  | .bubble vid => [vid]
  | .ifW _ _ children elseBranch =>
    collectIdsList children ++
      (match elseBranch with
       | some l => collectIdsList l
       | none => [])
  | .forW _ _ children => collectIdsList children
  | .whileW _ _ children => collectIdsList children
  | .tryCatchW _ children catchBlock =>
    collectIdsList children ++
      (match catchBlock with
       | some l => collectIdsList l
       | none => [])
  | .codeBlockW _ _ children => collectIdsList children

/-- Collect bubble ids across a list of workflow nodes. -/
def collectIdsList : List WorkflowNode → List Int
  | [] => []
  | n :: rest => collectWorkflowIds n ++ collectIdsList rest

end

end BubbleLab

namespace BubbleLab

/-! ## Dependency graph (`BubbleParser.buildDependencyGraph`)

The registry (`BubbleFactory`) maps bubble names to metadata: a node type,
optional detailed dependency specs (each with optional tool lists and
named instances) and an optional flat dependency list.  The recursive graph
builder is embedded by genuine well-founded recursion: the `seen` set grows
inside the finite universe of registry names plus `ai-agent`, which is
exactly the cycle-protection argument of the source. -/

structure DepInstance where
  variableName : Option String
deriving Repr, DecidableEq

structure DepSpec where
  name : String
  tools : Option (List String)
  instances : Option (List DepInstance)
deriving Repr, DecidableEq

structure BubbleMeta where
  btype : Option String
  bubbleDependenciesDetailed : Option (List DepSpec)
  bubbleDependencies : Option (List String)
deriving Repr, DecidableEq

def BubbleFactory := List (String × BubbleMeta)

def getMetadata (f : BubbleFactory) (n : String) : Option BubbleMeta :=
  ((f : List (String × BubbleMeta)).find? (fun p => p.1 = n)).map (·.2)

inductive DepNode where
  | mk (name : String) (uniqueId : String) (variableId : Int)
      (variableName : Option String) (nodeType : String)
      (dependencies : List DepNode)
deriving Repr

def DepNode.name : DepNode → String
  | .mk n _ _ _ _ _ => n

def DepNode.uniqueId : DepNode → String
  | .mk _ u _ _ _ _ => u

def DepNode.variableId : DepNode → Int
  | .mk _ _ v _ _ _ => v

def DepNode.variableName : DepNode → Option String
  | .mk _ _ _ vn _ _ => vn

def DepNode.nodeType : DepNode → String
  | .mk _ _ _ _ t _ => t

def DepNode.dependencies : DepNode → List DepNode
  | .mk _ _ _ _ _ d => d

/-- One step of 32-bit FNV-1a: xor in one character code, multiply by the
FNV prime, keep 32 bits.  (The source's `(hash * 16777619) >>> 0` performs
the multiplication in double precision; that rounding is not modelled —
no stated property depends on particular hash values, only on the hash
being a pure function of its input.) -/
def fnvStep (hash c : Nat) : Nat := ((hash ^^^ c) * 16777619) % 4294967296

/-- `BubbleParser.hashUniqueIdToVarId`: FNV-1a over the uniqueId string,
mapped into the 6-digit range `100000 + hash % 900000`. -/
def hashUniqueIdToVarId (input : String) : Nat :=
  100000 + (input.data.foldl (fun h c => fnvStep h c.toNat) 2166136261) % 900000

/-- `ordinalCounters.get(key) || 0`. -/
def ctrGet (m : List (String × Nat)) (k : String) : Nat :=
  (((m.find? (fun p => p.1 = k)).map (·.2)).getD 0)

/-- `ordinalCounters.set(key, v)`. -/
def ctrSet (m : List (String × Nat)) (k : String) (v : Nat) :
    List (String × Nat) :=
  if m.any (fun p => p.1 = k) then
    m.map (fun p => if p.1 = k then (k, v) else p)
  else m ++ [(k, v)]

/-- The finite universe of names the recursion can add to `seen`: the
registry keys plus `ai-agent`. -/
def depUniv (f : BubbleFactory) : Finset String :=
  insert "ai-agent" ((f : List (String × BubbleMeta)).map (·.1)).toFinset

theorem getMetadata_mem_univ {f : BubbleFactory} {n : String} {m : BubbleMeta}
    (h : getMetadata f n = some m) : n ∈ depUniv f := by
  unfold getMetadata at h
  cases hf : (f : List (String × BubbleMeta)).find? (fun p => p.1 = n) with
  | none => simp [hf] at h
  | some p =>
    have hmem := List.mem_of_find?_eq_some hf
    have hpred := List.find?_some hf
    have hp1 : p.1 = n := by simpa using hpred
    have : n ∈ ((f : List (String × BubbleMeta)).map (·.1)) := by
      rw [← hp1]; exact List.mem_map_of_mem _ hmem
    simp only [depUniv, Finset.mem_insert, List.mem_toFinset]
    exact Or.inr this

theorem card_sdiff_insert_lt {univ seen : Finset String} {n : String}
    (hu : n ∈ univ) (hs : n ∉ seen) :
    (univ \ insert n seen).card < (univ \ seen).card := by
  have h1 : univ \ insert n seen = (univ \ seen).erase n := by
    ext x
    simp only [Finset.mem_sdiff, Finset.mem_erase, Finset.mem_insert]
    tauto
  rw [h1]
  exact Finset.card_erase_lt_of_mem (Finset.mem_sdiff.mpr ⟨hu, hs⟩)

mutual

/-- `BubbleParser.buildDependencyGraph`.  The node's `uniqueId` (from the
per-`(parent, name)` ordinal counters) and `variableId` (explicit for the
root, otherwise the hash of the uniqueId) are computed first, so a cycle
hit still carries ids but expands no dependencies.  The
`usedVariableIds` argument of the source is passed around but never read,
and is omitted. -/
def buildDependencyGraph (factory : BubbleFactory) (bubbleName : String)
    (seen : Finset String) (toolsForThisNode : Option (List String))
    (parentUniqueId : String) (counters : List (String × Nat))
    (explicitVariableId : Option Int) (suppressSelfSegment : Bool)
    (instanceVariableName : Option String) :
    DepNode × List (String × Nat) :=
  let countKey := parentUniqueId ++ "|" ++ bubbleName
  let nextOrdinal := ctrGet counters countKey + 1
  let counters1 := ctrSet counters countKey nextOrdinal
  let uniqueId :=
    if suppressSelfSegment then parentUniqueId
    else if parentUniqueId ≠ "" then
      parentUniqueId ++ "." ++ bubbleName ++ "#" ++ toString nextOrdinal
    else bubbleName ++ "#" ++ toString nextOrdinal
  let variableId : Int :=
    match explicitVariableId with
    | some v => v
    | none => Int.ofNat (hashUniqueIdToVarId uniqueId)
  let nodeType := ((getMetadata factory bubbleName).bind (·.btype)).getD "unknown"
  if hSeen : bubbleName ∈ seen then
    (⟨bubbleName, uniqueId, variableId, instanceVariableName, nodeType, []⟩,
      counters1)
  else if hMem : bubbleName ∈ depUniv factory then
    let nextSeen := insert bubbleName seen
    let (childrenBase, counters2) :=
      match getMetadata factory bubbleName with
      | none => ([], counters1)
      | some m =>
        match m.bubbleDependenciesDetailed with
        | some (s :: specs) =>
          buildDepSpecs factory (s :: specs) nextSeen uniqueId counters1
        | _ =>
          buildDepsPlain factory (m.bubbleDependencies.getD []) nextSeen
            uniqueId counters1
    let (toolChildren, counters3) :=
      if bubbleName = "ai-agent" then
        match toolsForThisNode with
        | some tools => buildToolsRoot factory tools nextSeen uniqueId counters2
        | none => ([], counters2)
      else ([], counters2)
    (⟨bubbleName, uniqueId, variableId, instanceVariableName, nodeType,
      childrenBase ++ toolChildren⟩, counters3)
  else
    -- A name outside the registry and different from `ai-agent` has no
    -- metadata (`getMetadata` is `none` outside the key set) and cannot be
    -- the `ai-agent` tool case, so the source's general branch produces no
    -- children for it; this arm is that branch specialized accordingly, and
    -- the split makes the termination measure of the general arm explicit.
    (⟨bubbleName, uniqueId, variableId, instanceVariableName, nodeType, []⟩,
      counters1)
termination_by ((depUniv factory \ seen).card, 0, 0)
decreasing_by
  all_goals
    exact Prod.Lex.left _ _ (card_sdiff_insert_lt hMem hSeen)

/-- The loop over `bubbleDependenciesDetailed`. -/
def buildDepSpecs (factory : BubbleFactory) (specs : List DepSpec)
    (seen : Finset String) (parentUid : String)
    (counters : List (String × Nat)) : List DepNode × List (String × Nat) :=
  match specs with
  | [] => ([], counters)
  | spec :: rest =>
    let insts : List (Option String) :=
      match spec.instances with
      | some (x :: xs) => (x :: xs).map (·.variableName)
      | _ => [none]
    let (c1, counters1) := buildDepInstances factory spec insts seen parentUid counters
    let (c2, counters2) := buildDepSpecs factory rest seen parentUid counters1
    (c1 ++ c2, counters2)
termination_by ((depUniv factory \ seen).card, 4, specs.length)

/-- The per-instance loop of one detailed spec, including the
cycle-breaking synthesized `ai-agent` node that carries only its tool
children. -/
def buildDepInstances (factory : BubbleFactory) (spec : DepSpec)
    (insts : List (Option String)) (seen : Finset String) (parentUid : String)
    (counters : List (String × Nat)) : List DepNode × List (String × Nat) :=
  match insts with
  | [] => ([], counters)
  | instVarName :: rest =>
    let childName := spec.name
    let toolsForChild := if childName = "ai-agent" then spec.tools else none
    let nodeType := ((getMetadata factory childName).bind (·.btype)).getD "unknown"
    if childName = "ai-agent" ∧ toolsForChild.isSome ∧ "ai-agent" ∈ seen then
      let aiCountKey := parentUid ++ "|ai-agent"
      let aiOrdinal := ctrGet counters aiCountKey + 1
      let counters1 := ctrSet counters aiCountKey aiOrdinal
      let aiUid := parentUid ++ ".ai-agent#" ++ toString aiOrdinal
      let aiVarId : Int := Int.ofNat (hashUniqueIdToVarId aiUid)
      let (toolChildren, counters2) :=
        buildToolsSynth factory (toolsForChild.getD []) seen aiUid counters1
      let node : DepNode :=
        ⟨"ai-agent", aiUid, aiVarId, instVarName, nodeType, toolChildren⟩
      let (rest', counters3) :=
        buildDepInstances factory spec rest seen parentUid counters2
      (node :: rest', counters3)
    else
      let (node, counters1) :=
        buildDependencyGraph factory childName seen toolsForChild parentUid
          counters none false instVarName
      let (rest', counters2) :=
        buildDepInstances factory spec rest seen parentUid counters1
      (node :: rest', counters2)
termination_by ((depUniv factory \ seen).card, 3, insts.length)

/-- The fallback loop over flat `bubbleDependencies` (used when no
detailed specs are declared). -/
def buildDepsPlain (factory : BubbleFactory) (deps : List String)
    (seen : Finset String) (parentUid : String)
    (counters : List (String × Nat)) : List DepNode × List (String × Nat) :=
  match deps with
  | [] => ([], counters)
  | d :: rest =>
    let (node, counters1) :=
      buildDependencyGraph factory d seen none parentUid counters none false
        (some "No bubble detail dependency")
    let (rest', counters2) := buildDepsPlain factory rest seen parentUid counters1
    (node :: rest', counters2)
termination_by ((depUniv factory \ seen).card, 2, deps.length)

/-- The tool-children loop of a synthesized `ai-agent` node (no `seen`
skip: already-seen tools become id-carrying leaves). -/
def buildToolsSynth (factory : BubbleFactory) (tools : List String)
    (seen : Finset String) (parentUid : String)
    (counters : List (String × Nat)) : List DepNode × List (String × Nat) :=
  match tools with
  | [] => ([], counters)
  | t :: rest =>
    let (node, counters1) :=
      buildDependencyGraph factory t seen none parentUid counters none false
        (some t)
    let (rest', counters2) := buildToolsSynth factory rest seen parentUid counters1
    (node :: rest', counters2)
termination_by ((depUniv factory \ seen).card, 1, tools.length)

/-- The dynamic tool loop of a root `ai-agent` node (`seen` tools are
skipped). -/
def buildToolsRoot (factory : BubbleFactory) (tools : List String)
    (seen : Finset String) (parentUid : String)
    (counters : List (String × Nat)) : List DepNode × List (String × Nat) :=
  match tools with
  | [] => ([], counters)
  | t :: rest =>
    if t ∈ seen then buildToolsRoot factory rest seen parentUid counters
    else
      let (node, counters1) :=
        buildDependencyGraph factory t seen none parentUid counters none false
          (some t)
      let (rest', counters2) := buildToolsRoot factory rest seen parentUid counters1
      (node :: rest', counters2)
termination_by ((depUniv factory \ seen).card, 2, tools.length)

end

end BubbleLab

namespace BubbleLab

/-! ## Trigger detection (`BubbleScript.getBubbleTriggerEventType`) and
trigger validation (`validateTriggerEvent` of the validation service) -/

structure BubbleTrigger where
  ttype : String
  cronSchedule : Option String
deriving Repr, DecidableEq

/-- The per-class check of `getBubbleTriggerEventType`: superclass must be
the identifier `BubbleFlow`, the first generic argument must be a string
literal type (the empty string is falsy and rejected, as in the source),
and for `schedule/cron` the first `cronSchedule` class property with a
string-literal value is read. -/
def tryClassTrigger (superName : Option String) (superTypeArgs : List TypeNode)
    (members : List ClassMember) : Option BubbleTrigger :=
  match superName with
  | some "BubbleFlow" =>
    match superTypeArgs.head? with
    | some (.tsLitStr eventType) =>
      if eventType = "" then none
      else
        let cronSchedule : Option String :=
          if eventType = "schedule/cron" then
            members.findSome? fun m =>
              match m with
              | .propertyDef "cronSchedule" (some (.litStr v _)) _ => some v
              | _ => none
          else none
        some ⟨eventType, cronSchedule⟩
    | _ => none
  | _ => none

/-- The AST pass of `getBubbleTriggerEventType` over the top-level
statements (export wrappers are handled identically in the source). -/
def getBubbleTriggerEventTypeAst (prog : Program) : Option BubbleTrigger :=
  prog.body.findSome? fun stmt =>
    match stmt with
    | .classS _ _ superName superTypeArgs members _ _ =>
      tryClassTrigger superName superTypeArgs members
    | _ => none

/-- `getBubbleTriggerEventType`: the AST pass, then the regex fallback over
the raw source text.  The regex fallback operates on the raw string and is
represented here by its result, passed as an explicit argument. -/
def getBubbleTriggerEventType (prog : Program)
    (regexFallback : Option BubbleTrigger) : Option BubbleTrigger :=
  match getBubbleTriggerEventTypeAst prog with
  | some t => some t
  | none => regexFallback

/-- Digits-only parse of a character list. -/
def digitsToNat? (cs : List Char) : Option Nat :=
  match cs with
  | [] => none
  | _ =>
    if cs.all (fun c => '0' ≤ c && c ≤ '9') then
      some (cs.foldl (fun n c => n * 10 + (c.toNat - 48)) 0)
    else none

/-- Split on space characters. -/
def chSplitSpace (cs : List Char) (cur : List Char) : List String :=
  match cs with
  | [] => [ofCh cur.reverse]
  | c :: rest =>
    if c == ' ' then ofCh cur.reverse :: chSplitSpace rest []
    else chSplitSpace rest (c :: cur)

structure CronValidation where
  valid : Bool
deriving Repr, DecidableEq

/-- One cron field: `*` or a number within the field's range. -/
def cronFieldOk (lo hi : Nat) (f : String) : Bool :=
  f = "*" ||
  (match digitsToNat? f.data with
   | some n => decide (lo ≤ n) && decide (n ≤ hi)
   | none => false)

/-- Modelled from the spec: `validateCronExpression` is imported from
`@bubblelab/shared-schemas`, whose validator implementation is not under
`src/`.  The spec calls for a syntactic check of a five-field cron
expression (`'0 0 * * *'` valid, `'99 99 * * *'` invalid); the model
accepts five space-separated fields, each a `*` or an in-range number
(minute 0-59, hour 0-23, day 1-31, month 1-12, weekday 0-6). -/
def validateCronExpression (s : String) : CronValidation :=
  match chSplitSpace s.data [] with
  | [mi, h, d, mo, w] =>
    ⟨cronFieldOk 0 59 mi && cronFieldOk 0 23 h && cronFieldOk 1 31 d &&
      cronFieldOk 1 12 mo && cronFieldOk 0 6 w⟩
  | _ => ⟨false⟩

/-- Modelled from the spec: the source calls
`validateCronExpression(triggerEvent.cronSchedule!)` even when the schedule
is missing; a missing expression does not validate. -/
def validateCronExpressionOpt (o : Option String) : CronValidation :=
  match o with
  | some s => validateCronExpression s
  | none => ⟨false⟩

/-- `validateTriggerEvent` of the validation service: missing trigger is an
error; a cron trigger additionally requires a present, valid cron schedule.
(The source's full diagnostic strings are abbreviated; only their presence
matters to the stated properties.) -/
def validateTriggerEvent (trigger : Option BubbleTrigger) : List String :=
  match trigger with
  | none => ["Missing trigger event"]
  | some t =>
    if t.ttype = "schedule/cron" then
      (if t.cronSchedule.isNone then ["Missing cron schedule"] else []) ++
      (if (validateCronExpressionOpt t.cronSchedule).valid then []
       else ["Invalid cron schedule"])
    else []

/-! ## Payload schema inference (`getPayloadJsonSchema`,
`tsTypeToJsonSchema`, `objectTypeToJsonSchema`, `eventKeyToSchema`,
`resolveTypeNameToJson`) and default harvesting
(`extractPayloadDefaultsFromHandle`, `evaluateDefaultExpressionToJSON`) -/

/-- `getFirstParamIdentifierName`. -/
def getFirstParamIdentifierName : Param → Option String
  | .pIdent n _ => some n
  | .pAssign (some n) _ => some n
  | .pRest (some n) _ => some n
  | _ => none

/-- The `Literal`-only element conversion inside
`evaluateDefaultExpressionToJSON` for array defaults. -/
def exprLiteralToJson : Expr → Option Json
  | .litStr v _ => some (.str v)
  | .litNum n _ => some (.num n)
  | .litBool b _ => some (.bool b)
  | .litNull _ => some .null
  | _ => none

/-- The identifier-or-string-literal-keyed, `Literal`-valued property
conversion inside `evaluateDefaultExpressionToJSON` for object defaults. -/
def opropLiteralToJson : OProp → Option (String × Json)
  | .prop key value =>
    (match key with
     | .ik n => some n
     | .sk s => some s
     | .otherK => none).bind fun pk =>
      (exprLiteralToJson value).map fun v => (pk, v)
  | .spreadP _ => none

/-- `evaluateDefaultExpressionToJSON`: best-effort JSON value of a default
expression — literals, expression-free templates, signed numeric literals,
`!` of boolean literals, arrays of literals, objects of literals; anything
else is unset. -/
def evaluateDefaultExpressionToJSON (e : Expr) : Option Json :=
  match e with
  | .litStr v _ => some (.str v)
  | .litNum n _ => some (.num n)
  | .litBool b _ => some (.bool b)
  | .litNull _ => some .null
  | .template cooked nExprs _ =>
    if nExprs = 0 then some (.str (sJoin "" cooked)) else none
  | .unaryE op arg _ =>
    (match op, arg with
     | "-", .litNum n _ => some (.num (-n))
     | "+", .litNum n _ => some (.num n)
     | "!", .litBool b _ => some (.bool (!b))
     | _, _ => none)
  | .arrayLit elems _ => (elems.mapM exprLiteralToJson).map Json.arr
  | .objectLit props _ => (props.mapM opropLiteralToJson).map Json.obj
  | _ => none

/-- The per-pattern collection step of `extractPayloadDefaultsFromHandle`:
properties with an evaluable default are recorded, first occurrence wins. -/
def addDefaultsFromPat (props : List DProp) (acc : List (String × Json)) :
    List (String × Json) :=
  props.foldl (fun acc p =>
    match p with
    | .dprop key defExpr =>
      (match (match key with
              | .ik n => some n
              | .sk s => some s
              | .otherK => none) with
       | none => acc
       | some k =>
         match evaluateDefaultExpressionToJSON defExpr with
         | some v => if acc.any (fun kv => kv.1 = k) then acc else acc ++ [(k, v)]
         | none => acc)
    | _ => acc) acc

/-- `extractPayloadDefaultsFromHandle`: scan the handle body's top-level
`const { k = d } = <paramName>` destructurings of the first parameter. -/
def extractPayloadDefaultsFromHandle (h : HandleFn) : List (String × Json) :=
  match h.params with
  | [] => []
  | p :: _ =>
    match getFirstParamIdentifierName p with
    | none => []
    | some paramName =>
      match h.body with
      | none => []
      | some stmts =>
        stmts.foldl (fun acc stmt =>
          match stmt with
          | .varDecl decls _ _ =>
            decls.foldl (fun acc d =>
              match d with
              | .mk (.objectP props) (some (.ident n)) =>
                if n = paramName then addDefaultsFromPat props acc else acc
              | _ => acc) acc
          | _ => acc) []

/-- `eventKeyToSchema`: the fixed schemas for the known trigger-event keys. -/
def eventKeyToSchema (eventKey : String) : Option Json :=
  if eventKey = "slack/bot_mentioned" then
    some (.obj [("type", .str "object"),
      ("properties", .obj [("text", .obj [("type", .str "string")]),
        ("channel", .obj [("type", .str "string")]),
        ("thread_ts", .obj [("type", .str "string")]),
        ("user", .obj [("type", .str "string")]),
        ("slack_event", .obj [("type", .str "object")]),
        ("monthlyLimitError", .obj [])]),
      ("required", .arr [.str "text", .str "channel", .str "user",
        .str "slack_event"])])
  else if eventKey = "webhook/http" then
    some (.obj [("type", .str "object"),
      ("properties", .obj [("body", .obj [("type", .str "object")])])])
  else if eventKey = "schedule/cron" then
    some (.obj [("type", .str "object"),
      ("properties", .obj [("body", .obj [("type", .str "object")])])])
  else if eventKey = "slack/message_received" then
    some (.obj [("type", .str "object"),
      ("properties", .obj [("text", .obj [("type", .str "string")]),
        ("channel", .obj [("type", .str "string")]),
        ("user", .obj [("type", .str "string")]),
        ("channel_type", .obj [("type", .str "string")]),
        ("slack_event", .obj [("type", .str "object")])]),
      ("required", .arr [.str "text", .str "channel", .str "user",
        .str "slack_event"])])
  else none

/-- `properties[key] = v` on a JSON object's field list. -/
def jsObjSet (fields : List (String × Json)) (k : String) (v : Json) :
    List (String × Json) :=
  if fields.any (fun f => f.1 = k) then
    fields.map (fun f => if f.1 = k then (k, v) else f)
  else fields ++ [(k, v)]

/-- `{...current, default: defVal}`: spread the current value (objects keep
their fields, primitives spread to nothing) and set the key. -/
def objSpreadSet (j : Json) (k : String) (v : Json) : Json :=
  match j with
  | .obj fields => .obj (jsObjSet fields k v)
  | _ => .obj [(k, v)]

mutual

/-- `tsTypeToJsonSchema`, fuelled: the source recurses through same-file
type references via `resolveTypeNameToJson` and does not terminate on
circular aliases; exhausted fuel yields `none`, which every caller treats
as the source's `|| {}` fallback. -/
def tsTypeToJsonSchema (sl : List String) (prog : Program) :
    Nat → TypeNode → Option Json
  | 0, _ => none
  | fuel + 1, t =>
    match t with
    | .tsString => some (.obj [("type", .str "string")])
    | .tsNumber => some (.obj [("type", .str "number")])
    | .tsBoolean => some (.obj [("type", .str "boolean")])
    | .tsNull => some (.obj [("type", .str "null")])
    | .tsAny => some (.obj [])
    | .tsUnknown => some (.obj [])
    | .tsUndefined => some (.obj [])
    | .tsLitStr s => some (.obj [("const", .str s)])
    | .tsLitNum n => some (.obj [("const", .num n)])
    | .tsLitBool b => some (.obj [("const", .bool b)])
    | .tsLitOther => some (.obj [])
    | .tsArray elem =>
      some (.obj [("type", .str "array"),
        ("items", (tsTypeToJsonSchema sl prog fuel elem).getD (.obj []))])
    | .tsUnion types =>
      some (.obj [("anyOf", .arr (types.map fun ty =>
        (tsTypeToJsonSchema sl prog fuel ty).getD (.obj [])))])
    | .tsInter types =>
      some (.obj [("allOf", .arr (types.map fun ty =>
        (tsTypeToJsonSchema sl prog fuel ty).getD (.obj [])))])
    | .tsTypeLit members => some (objectTypeToJsonSchema sl prog fuel members)
    | .tsIndexed objName idxLit =>
      (match objName, idxLit with
       | some "BubbleTriggerEventRegistry", some key =>
         (match eventKeyToSchema key with
          | some schema => some schema
          | none => some (.obj []))
       | _, _ => some (.obj []))
    | .tsRef name =>
      (match name with
       | none => some (.obj [])
       | some n =>
         (match resolveTypeNameToJson sl prog fuel n with
          | some r => some r
          | none => some (.obj [])))
    | .tsOther => some (.obj [])

/-- `objectTypeToJsonSchema`: property signatures become `properties`
entries (with preceding-comment descriptions), non-optional members are
pushed onto `required`. -/
def objectTypeToJsonSchema (sl : List String) (prog : Program) :
    Nat → List TypeMember → Json
  | 0, _ => .obj []
  | fuel + 1, members =>
    let step := members.foldl (fun (acc : List (String × Json) × List String) m =>
      match m with
      | .propSig key optional ty line =>
        (match (match key with
                | .ik n => some n
                | .sk s => some s
                | .otherK => none) with
         | none => acc
         | some keyName =>
           let propSchema : Json :=
             match ty with
             | some tnode => (tsTypeToJsonSchema sl prog fuel tnode).getD (.obj [])
             | none => .obj []
           let propSchema :=
             match extractCommentForNode sl line with
             | some d => objSpreadSet propSchema "description" (.str d)
             | none => propSchema
           ((jsObjSet acc.1 keyName propSchema),
            if optional then acc.2 else acc.2 ++ [keyName]))
      | .otherM => acc) ([], [])
    let schema : List (String × Json) :=
      [("type", .str "object"), ("properties", .obj step.1)]
    if step.2.isEmpty then .obj schema
    else .obj (schema ++ [("required", .arr (step.2.map Json.str))])

/-- `resolveTypeNameToJson`: first same-file interface or type alias of the
given name (export wrappers folded in). -/
def resolveTypeNameToJson (sl : List String) (prog : Program) :
    Nat → String → Option Json
  | 0, _ => none
  | fuel + 1, name =>
    prog.body.findSome? fun stmt =>
      match stmt with
      | .ifaceS _ iname members _ _ =>
        if iname = name then some (objectTypeToJsonSchema sl prog fuel members)
        else none
      | .aliasS _ aname ty _ _ =>
        if aname = name then
          some ((tsTypeToJsonSchema sl prog fuel ty).getD (.obj []))
        else none
      | _ => none

end

/-- The defaults merge of `getPayloadJsonSchema`: for each harvested
default whose key is among the schema's properties, replace that property
with `{...current, default: defVal}`. -/
def mergeDefaults (schema : Json) (defaults : List (String × Json)) : Json :=
  if defaults.isEmpty then schema
  else
    match schema with
    | .obj fields =>
      (match (fields.find? (fun f => f.1 = "properties")).map (·.2) with
       | some (Json.obj props) =>
         let props' := defaults.foldl (fun ps kv =>
           if ps.any (fun f => f.1 = kv.1) then
             ps.map (fun f =>
               if f.1 = kv.1 then (kv.1, objSpreadSet f.2 "default" kv.2) else f)
           else ps) props
         .obj (fields.map (fun f =>
           if f.1 = "properties" then ("properties", Json.obj props') else f))
       | _ => schema)
    | _ => schema

/-- `getPayloadJsonSchema`: type annotation of the first `handle`
parameter converted to a schema, then harvested destructuring defaults
merged into its properties. -/
def getPayloadJsonSchema (sl : List String) (fuel : Nat) (prog : Program) :
    Option Json :=
  match findHandleFunctionNode prog with
  | none => none
  | some h =>
    match h.params with
    | [] => none
    | p :: _ =>
      let typeAnn : Option TypeNode :=
        match p with
        | .pIdent _ ty => ty
        | .pAssign (some _) ty => ty
        | .pAssign none _ => none
        | .pRest (some _) ty => ty
        | .pRest none _ => none
        | .pOther => none
      match typeAnn with
      | none => some (.obj [])
      | some t =>
        let schema := (tsTypeToJsonSchema sl prog fuel t).getD (.obj [])
        some (mergeDefaults schema (extractPayloadDefaultsFromHandle h))

/-- The property list of a schema (empty for non-objects). -/
def schemaProps (j : Json) : List (String × Json) :=
  match j with
  | .obj fields =>
    match (fields.find? (fun f => f.1 = "properties")).map (·.2) with
    | some (Json.obj props) => props
    | _ => []
  | _ => []

/-- A schema carries no `default` key, neither at top level nor on any of
its `properties` entries (computable form, for reasoning about the
pre-merge output of `tsTypeToJsonSchema`). -/
def propsNoDefault (j : Json) : Bool :=
  (j.lookup "default").isNone &&
    ((schemaProps j).all fun p => ((p.2).lookup "default").isNone)

end BubbleLab

namespace BubbleLab

/-! ## Source mutation (`BubbleScript.reassignVariable`,
`BubbleScript.injectLines`)

The reassignment patterns `(\b(?:const|let|var)\s+NAME\s*=\s*)([^;,\n]+)`
and `(\bNAME\s*=\s*)([^;,\n]+)` are embedded as explicit scanners over the
line's characters (the variable name is regex-escaped in the source, i.e.
matched literally).  A regex word character is `[A-Za-z0-9_]`. -/

def isWordChar (c : Char) : Bool :=
  ('a' ≤ c && c ≤ 'z') || ('A' ≤ c && c ≤ 'Z') || ('0' ≤ c && c ≤ '9') ||
  c = '_'

/-- Word-boundary check for the character preceding the match position. -/
def boundaryOk : Option Char → Bool
  | none => true
  | some c => !isWordChar c

/-- Strip an exact literal from the front. -/
def dropExact : List Char → List Char → Option (List Char)
  | cs, [] => some cs
  | [], _ :: _ => none
  | c :: cs, p :: ps => if c == p then dropExact cs ps else none

/-- Can `\s*[^;,\n]+` match here?  Since a whitespace character is itself in
`[^;,\n]`, this holds exactly when some character remains and the first one
is not `;` or `,`. -/
def valueStartOk (cs : List Char) : Bool :=
  match cs with
  | [] => false
  | c :: _ => !(c == ';' || c == ',')

/-- Match `NAME\s*=\s*[^;,\n]+` at the current position. -/
def matchNameEq (name : List Char) (cs : List Char) : Bool :=
  match dropExact cs name with
  | some rest =>
    (match rest.dropWhile isWS with
     | '=' :: rest3 => valueStartOk rest3
     | _ => false)
  | none => false

/-- Match `(?:const|let|var)\s+NAME\s*=\s*[^;,\n]+` at the current
position. -/
def matchDeclHere (name : List Char) (cs : List Char) : Bool :=
  ["const", "let", "var"].any fun kw =>
    match dropExact cs kw.data with
    | some rest =>
      (match rest with
       | c :: _ => isWS c && matchNameEq name (rest.dropWhile isWS)
       | [] => false)
    | none => false

/-- `variablePattern.test(line)`: the declaration pattern matches at some
word-boundary position of the line. -/
def testDeclPattern (name : String) (line : String) : Bool :=
  go name.data none line.data
where
  go (name : List Char) (prev : Option Char) (cs : List Char) : Bool :=
    (boundaryOk prev && matchDeclHere name cs) ||
    (match cs with
     | [] => false
     | c :: rest => go name (some c) rest)

/-- `assignmentPattern.test(line)`: the bare-assignment pattern matches at
some word-boundary position of the line. -/
def testAssignPattern (name : String) (line : String) : Bool :=
  go name.data none line.data
where
  go (name : List Char) (prev : Option Char) (cs : List Char) : Bool :=
    (boundaryOk prev && matchNameEq name cs) ||
    (match cs with
     | [] => false
     | c :: rest => go name (some c) rest)

/-- Consume `\s*` then the greedy `[^;,\n]+` value group (with the regex
backtracking rule: if only whitespace follows, the last whitespace
character becomes the value), returning the consumed prefix and the rest. -/
def splitValueGroup (cs : List Char) : Option (List Char × List Char) :=
  let w := cs.takeWhile isWS
  let rest := cs.dropWhile isWS
  match rest with
  | c :: _ =>
    if c == ';' || c == ',' then
      match w with
      | [] => none
      | _ => some (w.dropLast ++ [w.getLastD ' '], rest)
    else
      some (w ++ rest.takeWhile (fun c => !(c == ';' || c == ',')),
        rest.dropWhile (fun c => !(c == ';' || c == ',')))
  | [] =>
    match w with
    | [] => none
    | _ => some (w, [])

/-- Consume group 1 of the declaration pattern
(`kw \s+ NAME \s* = `) at the current position, returning the consumed
characters and the rest (positioned before `\s*[^;,\n]+`). -/
def consumeDeclGroup1 (name cs : List Char) : Option (List Char × List Char) :=
  (["const", "let", "var"].map String.data).findSome? fun kw =>
    match dropExact cs kw with
    | some rest =>
      (match rest with
       | c :: _ =>
         if isWS c then
           let ws := rest.takeWhile isWS
           let afterWs := rest.dropWhile isWS
           match dropExact afterWs name with
           | some rest2 =>
             let ws2 := rest2.takeWhile isWS
             (match rest2.dropWhile isWS with
              | '=' :: rest3 =>
                if valueStartOk rest3 then
                  some (kw ++ ws ++ name ++ ws2 ++ ['='], rest3)
                else none
              | _ => none)
           | none => none
         else none
       | [] => none)
    | none => none

/-- Consume group 1 of the bare-assignment pattern (`NAME \s* = `). -/
def consumeAssignGroup1 (name cs : List Char) : Option (List Char × List Char) :=
  match dropExact cs name with
  | some rest =>
    let ws2 := rest.takeWhile isWS
    (match rest.dropWhile isWS with
     | '=' :: rest3 =>
       if valueStartOk rest3 then some (name ++ ws2 ++ ['='], rest3)
       else none
     | _ => none)
  | none => none

/-- Global replacement `line.replace(pattern, prefixGroup + newValue)` for
either pattern, scanning left to right (fuelled by the line length). -/
def replaceScan (consume : List Char → List Char → Option (List Char × List Char))
    (name newValue : List Char) :
    Nat → Option Char → List Char → List Char
  | 0, _, cs => cs
  | _ + 1, _, [] => []
  | fuel + 1, prev, c :: rest =>
    match (if boundaryOk prev then consume name (c :: rest) else none) with
    | some (g1, afterG1) =>
      (match splitValueGroup afterG1 with
       | some (g2, afterG2) =>
         g1 ++ newValue ++
           replaceScan consume name newValue fuel g2.getLast? afterG2
       | none => c :: replaceScan consume name newValue fuel (some c) rest)
    | none => c :: replaceScan consume name newValue fuel (some c) rest

/-- Apply a full-line replacement with the given pattern. -/
def replaceLine (consume : List Char → List Char → Option (List Char × List Char))
    (name line newValue : String) : String :=
  ofCh (replaceScan consume name.data newValue.data (line.length + 1) none
    line.data)

/-- The mutable state of a `BubbleScript` instance as the mutation API sees
it: the current source buffer, the variable-id-to-name map
(`scriptVariables`, of which only the name is read) and the
variable-id-to-location map (`variableLocations`). -/
structure BubbleState where
  currentScript : String
  scriptVars : List (Nat × String)
  varLocs : List (Nat × Loc)
deriving Repr, DecidableEq

/-- The content of a 1-based line of the current buffer (`lines[idx]`,
empty for out-of-range reads). -/
def declLineAt (st : BubbleState) (startLine : Nat) : String :=
  ((splitLines st.currentScript).get? (startLine - 1)).getD ""

/-- `BubbleScript.reassignVariable`: id lookup, location lookup, then the
two line patterns in order; no match on the declaration line is a thrown
error.  Returns the new source text. -/
def reassignVariable (st : BubbleState) (variableId : Nat)
    (newValue : String) : Except String String :=
  match (st.scriptVars.find? (fun p => p.1 = variableId)).map (·.2) with
  | none => .error ("Variable with ID " ++ toString variableId ++ " not found")
  | some name =>
    match (st.varLocs.find? (fun p => p.1 = variableId)).map (·.2) with
    | none => .error ("Location for variable " ++ name ++ " not found")
    | some loc =>
      let originalLine := declLineAt st loc.startLine
      if testDeclPattern name originalLine then
        .ok (sJoin "\n" ((splitLines st.currentScript).set (loc.startLine - 1)
          (replaceLine consumeDeclGroup1 name originalLine newValue)))
      else if testAssignPattern name originalLine then
        .ok (sJoin "\n" ((splitLines st.currentScript).set (loc.startLine - 1)
          (replaceLine consumeAssignGroup1 name originalLine newValue)))
      else
        .error ("Could not find variable assignment pattern for " ++ name ++
          " on line " ++ toString loc.startLine)

/-- `BubbleScript.injectLines`: 1-indexed insertion; a line number below 1
or beyond the end of the script is a thrown error.  Returns the new source
text. -/
def injectLines (st : BubbleState) (lines : List String) (lineNumber : Nat) :
    Except String String :=
  if lineNumber < 1 then .error "Line number must be 1 or greater"
  else
    let scriptLines := splitLines st.currentScript
    let insertIndex := lineNumber - 1
    if insertIndex > scriptLines.length then
      .error ("Line number " ++ toString lineNumber ++
        " exceeds script length (" ++ toString scriptLines.length ++ " lines)")
    else
      .ok (sJoin "\n" (scriptLines.take insertIndex ++ lines ++
        scriptLines.drop insertIndex))

/-- A mutation call observed at the instance level: on success the buffer
is updated, on a thrown error the instance state is exactly the old one
(the source assigns `this.currentBubbleScript` only after all checks). -/
def applyReassign (st : BubbleState) (variableId : Nat) (newValue : String) :
    BubbleState × Option String :=
  match reassignVariable st variableId newValue with
  | .ok newScript => ({ st with currentScript := newScript }, none)
  | .error e => (st, some e)

def applyInject (st : BubbleState) (lines : List String) (lineNumber : Nat) :
    BubbleState × Option String :=
  match injectLines st lines lineNumber with
  | .ok newScript => ({ st with currentScript := newScript }, none)
  | .error e => (st, some e)

end BubbleLab

namespace BubbleLab

/-! ## Parse pipeline (`BubbleScript` constructor / `reparseAST`) -/

/-- Modelled from the spec: `resetIds` of `@bubblelab/ts-scope-manager`
(whose implementation is not under `src/`) resets the module-level variable
id counter; the `BubbleScript` constructor calls it immediately before each
parse so that repeated parses of unchanged text yield identical ids. -/
def resetIds (_counter : Nat) : Nat := 0

/-- The declared top-level bindings of a program in statement order, with
their declaration lines. -/
def declaredNames (prog : Program) : List (String × Nat) :=
  prog.body.flatMap fun stmt =>
    match stmt with
    | .varDecl decls loc _ =>
      decls.filterMap fun d =>
        match d with
        | .mk (.identP n) _ => some (n, loc.startLine)
        | _ => none
    | .classS _ (some n) _ _ _ loc _ => [(n, loc.startLine)]
    | .funcS _ n _ _ loc _ => [(n, loc.startLine)]
    | _ => []

/-- Modelled from the spec: `analyze` of `@bubblelab/ts-scope-manager`
(not under `src/`) builds the scope tree and assigns every variable a
stable integer id from the counter, deterministically in AST order.  The
model allocates one id per declared top-level binding in statement order
inside a single module scope spanning the program. -/
def analyze (counter : Nat) (prog : Program) : ScopeManager × Nat :=
  let names := declaredNames prog
  let vars := names.enum.map fun p =>
    SVar.mk p.2.1 (counter + p.1) [p.2.2] "module"
  (⟨[Scope.mk "module" 1 1000000 vars none]⟩, counter + names.length)

/-- All variable ids of a scope manager with their names. -/
def smVarIds (sm : ScopeManager) : List (Nat × String) :=
  (sm.scopes.flatMap Scope.vars).map fun v => (v.id, v.name)

/-- The dependency-graph attachment loop of `parseBubblesFromAST`: for each
located bubble (in `Object.values` order), an `ai-agent` bubble's
configured tool list is parsed from its `tools` parameter
(`parseToolsParamValue` of `../utils/parameter-formatter` is not under
`src/`; its result on the parameter's source text is supplied by the
`toolsParsed` argument), and the hierarchical graph is built with the
bubble's own variableId as explicit root id and fresh ordinal counters. -/
def attachDependencyGraphs (factory : BubbleFactory)
    (toolsParsed : String → Option (List String))
    (nodes : List (Int × ParsedBubble)) :
    List (Int × ParsedBubble × DepNode) :=
  (entriesJS nodes).map fun kb =>
    let bubble := kb.2
    let rootTools : Option (List String) :=
      if bubble.bubbleName = "ai-agent" then
        match bubble.parameters.find? (fun p => p.name = "tools") with
        | some p => toolsParsed p.value
        | none => none
      else none
    (kb.1, bubble,
      (buildDependencyGraph factory bubble.bubbleName ∅ rootTools
        (toString bubble.variableId) [] (some bubble.variableId) true
        (some bubble.variableName)).1)

/-- The parse pipeline of the `BubbleScript` constructor (and of
`reparseAST`): reset the id counter, analyze scopes, locate bubbles, attach
dependency graphs, build the workflow tree.  An empty class-name lookup is
the source's thrown "No bubbles found in BubbleFactory" error.  The flat
`dependencies` rollup of the source is not attached here (no stated
property concerns it). -/
def parseScript (fuel : Nat) (scriptLines : List String)
    (lookup : List (String × BubbleInfo)) (factory : BubbleFactory)
    (toolsParsed : String → Option (List String)) (prog : Program)
    (counter : Nat) :
    Except String
      (List (Nat × String) × List (Int × ParsedBubble × DepNode) ×
        List WorkflowNode) :=
  let c0 := resetIds counter
  let (sm, _) := analyze c0 prog
  if lookup.isEmpty then
    .error "Failed to trace bubble dependencies: No bubbles found in BubbleFactory"
  else
    match visitProgram ⟨scriptLines, lookup, sm⟩ fuel prog with
    | .error e => .error e
    | .ok nodes =>
      .ok (smVarIds sm, attachDependencyGraphs factory toolsParsed nodes,
        buildWorkflowRoot fuel prog nodes)

end BubbleLab

namespace BubbleLab

/-! ## Concrete instances for the stated properties -/

/-- A registry lookup with one bubble class `X`. -/
def xLookup : List (String × BubbleInfo) := [("X", ⟨"x-bubble", "X", "service"⟩)]

/-- A flow class whose `handle` calls an instance method `helper`, the
latter containing the script's only bubble instantiation. -/
def c1Prog : Program := ⟨[
  .classS true (some "TestFlow") (some "BubbleFlow") [.tsLitStr "webhook/http"]
    [.methodDef "helper" false "method" []
      [.exprStmt (.callM (.newE (some "X") [.objectLit [] "..."] ⟨3, 10, 3, 19⟩
          "new X(...)") "action" [] "new X(...).action()") ⟨3, 4, 3, 24⟩
        "new X(...).action();"] ⟨2, 2, 4, 3⟩ 2,
     .methodDef "handle" false "method" [.pIdent "payload" none]
      [.exprStmt (.awaitE (.callM (.otherE [] "this") "helper" []
          "this.helper()") "await this.helper()") ⟨7, 4, 7, 25⟩
        "await this.helper();"] ⟨6, 2, 8, 3⟩ 6]
    ⟨1, 0, 9, 1⟩ "export class TestFlow extends BubbleFlow ..."]⟩

def c1Ctx : VisitCtx := ⟨[], xLookup, ⟨[]⟩⟩

/-- A script with a named bubble declaration followed by an anonymous
bubble expression statement. -/
def c3aProg : Program := ⟨[
  .varDecl [.mk (.identP "a")
    (some (.newE (some "X") [] ⟨1, 10, 1, 17⟩ "new X()"))] ⟨1, 0, 1, 18⟩
    "const a = new X();",
  .exprStmt (.newE (some "X") [] ⟨2, 0, 2, 7⟩ "new X()") ⟨2, 0, 2, 8⟩
    "new X();"]⟩

def c3aSM : ScopeManager := ⟨[.mk "module" 1 10 [⟨"a", 7, [1], "module"⟩] none]⟩

def c3aCtx : VisitCtx := ⟨[], xLookup, c3aSM⟩

/-- A flow class whose only bubble is the anonymous
`await new X({...}).action();`. -/
def c3bProg : Program := ⟨[
  .classS true (some "TestFlow") (some "BubbleFlow") [.tsLitStr "webhook/http"]
    [.methodDef "handle" false "method" [.pIdent "payload" none]
      [.exprStmt (.awaitE (.callM (.newE (some "X") [.objectLit [] "..."]
          ⟨3, 14, 3, 23⟩ "new X(...)") "action" [] "new X(...).action()")
          "await new X(...).action()") ⟨3, 4, 3, 30⟩
        "await new X(...).action();"] ⟨2, 2, 4, 3⟩ 2]
    ⟨1, 0, 5, 1⟩ "export class TestFlow extends BubbleFlow ..."]⟩

def c3bCtx : VisitCtx := ⟨[], xLookup, ⟨[]⟩⟩

/-- The single anonymous bubble the visit locates in `c3bProg`. -/
def c3bBubble : ParsedBubble :=
  ⟨-1, "_anonymous_X_0", "x-bubble", "X", [], true, true, "service",
    ⟨3, 14, 3, 23⟩, none⟩

/-- A scope manager for the parameter-resolution instance: `someVar`
declared at line 3 of a module scope. -/
def c4SM : ScopeManager :=
  ⟨[.mk "module" 1 20 [⟨"someVar", 3, [3], "module"⟩] none]⟩

/-- A flow class extending `BubbleFlow` with the `schedule/cron` generic
argument and a `readonly cronSchedule` string-literal class field. -/
def cronProgramOf (sched : String) : Program := ⟨[
  .classS true (some "CronFlow") (some "BubbleFlow") [.tsLitStr "schedule/cron"]
    [.propertyDef "cronSchedule" (some (.litStr sched "...")) ⟨2, 2, 2, 40⟩,
     .methodDef "handle" false "method" [.pIdent "payload" none] []
       ⟨3, 2, 4, 3⟩ 3]
    ⟨1, 0, 5, 1⟩ "export class CronFlow extends BubbleFlow ..."]⟩

/-- Scope tree for the scope-correctness instance: `outer` at line 1 in the
module scope, a `for` scope over lines 3-7, and a block scope inside it
with `inner` declared at line 5. -/
def c6Module : Scope := .mk "module" 1 10 [⟨"outer", 1, [1], "module"⟩] none

def c6For : Scope := .mk "for" 3 7 [⟨"i", 2, [3], "for"⟩] (some c6Module)

def c6Block : Scope := .mk "block" 3 7 [⟨"inner", 3, [5], "block"⟩] (some c6For)

def c6SM : ScopeManager := ⟨[c6Module, c6For, c6Block]⟩

/-- A flow class whose `handle` payload type declares `industry?`,
`subreddits?` and `topic`, and whose body destructures the payload with
defaults for the first two. -/
def c7Prog : Program := ⟨[
  .classS true (some "Flow") (some "BubbleFlow") [.tsLitStr "webhook/http"]
    [.methodDef "handle" false "method"
      [.pIdent "payload" (some (.tsTypeLit [
        .propSig (.ik "industry") true (some .tsString) 3,
        .propSig (.ik "subreddits") true (some (.tsArray .tsString)) 4,
        .propSig (.ik "topic") false (some .tsString) 5]))]
      [.varDecl [.mk (.objectP [
          .dprop (.ik "industry") (.litStr "general" "..."),
          .dprop (.ik "subreddits")
            (.arrayLit [.litStr "a" "...", .litStr "b" "..."] "...")])
        (some (.ident "payload"))] ⟨8, 4, 8, 60⟩
        "const industry subreddits = payload;"]
      ⟨7, 2, 9, 3⟩ 7]
    ⟨1, 0, 10, 1⟩ "export class Flow extends BubbleFlow ..."]⟩

/-- The inferred `industry` property of `c7Prog` after the defaults
merge. -/
def c7IndustryProp : Json :=
  .obj [("type", .str "string"), ("default", .str "general")]

/-- The inferred `topic` property of `c7Prog` (no default). -/
def c7TopicProp : Json := .obj [("type", .str "string")]

/-- The harvested defaults of a program's handle (empty when there is no
handle), as used by the defaults merge. -/
def payloadDefaultsOf (prog : Program) : List (String × Json) :=
  match findHandleFunctionNode prog with
  | some h => extractPayloadDefaultsFromHandle h
  | none => []

/-- A registry for the dependency-cycle instance: an `ai-agent` whose
configured tool `helper` declares a nested `ai-agent` dependency with its
own tool list. -/
def c8Factory : BubbleFactory :=
  [("ai-agent", ⟨some "service", some [⟨"logger", none, none⟩], none⟩),
   ("helper", ⟨some "tool", some [⟨"ai-agent", some ["sub-tool"], none⟩], none⟩),
   ("sub-tool", ⟨some "tool", none, none⟩),
   ("logger", ⟨some "service", none, none⟩)]

def c8Root : DepNode :=
  (buildDependencyGraph c8Factory "ai-agent" ∅ (some ["helper"]) "42" []
    (some 42) true (some "agentVar")).1

/-- A two-line mutation state: variables `x` (line 1), `y` (line 2) and a
variable `zz` whose recorded location line contains no assignment to it. -/
def c9State : BubbleState :=
  ⟨"const x = 1;" ++ "\n" ++ "let y = 2;",
   [(1, "x"), (2, "y"), (3, "zz")],
   [(1, ⟨1, 6, 1, 7⟩), (2, ⟨2, 4, 2, 5⟩), (3, ⟨2, 0, 2, 1⟩)]⟩

end BubbleLab

namespace BubbleLab

/-! ## The amended comment-capture rule, stated as its own definition

`extractCommentForNode` does not require the comment to sit immediately
above the declaration: blank lines directly above the declaration are
skipped, and only then is a contiguous run of comment lines collected,
terminated upward by a blank line or code.  The following definitions state
that amended rule directly; the equivalence with the source function is
proved below. -/

/-- A line the backwards scan collects as part of a comment. -/
def isCommentLine (l : String) : Bool :=
  sStarts l "//" || sStarts l "*" || sStarts l "/*" || sEnds l "*/"

/-- A collected line that flips the scan into block-comment cleaning. -/
def isBlockCommentLine (l : String) : Bool :=
  !sStarts l "//" && (sStarts l "*" || sStarts l "/*" || sEnds l "*/")

/-- The contiguous comment run ending at the given line (top to bottom),
with the block flag; empty if that line is not a comment line. -/
def takeRunSpec (lines : List String) : Nat → List String × Bool
  | 0 => ([], false)
  | n + 1 =>
    let l := getLineAt lines (n + 1)
    if isCommentLine l then
      let (run, isB) := takeRunSpec lines n
      (run ++ [l], isB || isBlockCommentLine l)
    else ([], false)

/-- Skip blank lines upward, then take the contiguous comment run. -/
def commentScanSpec (lines : List String) : Nat → List String × Bool
  | 0 => ([], false)
  | n + 1 =>
    if getLineAt lines (n + 1) = "" then commentScanSpec lines n
    else takeRunSpec lines (n + 1)

/-- The amended capture rule: skip blank lines above the node, collect the
contiguous comment run, clean it according to its kind. -/
def commentCaptureSpec (lines : List String) (nodeLine : Nat) : Option String :=
  if nodeLine = 0 then none
  else
    let (run, isB) := commentScanSpec lines (nodeLine - 1)
    if run = [] then none
    else
      let cleaned :=
        if isB then cleanBlockComment run else cleanSlashComment run
      if cleaned = "" then none else some cleaned

/-- No newline character occurs in the string. -/
def noNL (s : String) : Bool := s.data.all (fun c => !(c == '\n'))

end BubbleLab

namespace BubbleLab

theorem collect_nonempty_eq (lines : List String) :
    ∀ n (acc : List String) (isB : Bool), acc ≠ [] →
      collectCommentLines n lines acc isB =
        ((takeRunSpec lines n).1 ++ acc, isB || (takeRunSpec lines n).2) := by
  intro n
  induction n with
  | zero => intro acc isB _; simp [collectCommentLines, takeRunSpec]
  | succ n ih =>
    intro acc isB hacc
    by_cases hb : getLineAt lines (n + 1) = ""
    · simp [collectCommentLines, takeRunSpec, hb, hacc,
        (show isCommentLine "" = false by decide)]
    · by_cases h1 : sStarts (getLineAt lines (n + 1)) "//"
      · have hcomment : isCommentLine (getLineAt lines (n + 1)) = true := by
          simp [isCommentLine, h1]
        have hblockish : isBlockCommentLine (getLineAt lines (n + 1)) = false := by
          simp [isBlockCommentLine, h1]
        simp only [collectCommentLines, takeRunSpec, if_neg hb, if_pos h1,
          hcomment, if_pos rfl, hblockish]
        rw [ih (getLineAt lines (n + 1) :: acc) isB (by simp)]
        simp
      · by_cases h2 : (sStarts (getLineAt lines (n + 1)) "*" ||
            sStarts (getLineAt lines (n + 1)) "/*")
        · have hcomment : isCommentLine (getLineAt lines (n + 1)) = true := by
            simp only [isCommentLine]
            rcases Bool.or_eq_true_iff.mp h2 with h | h <;> simp [h]
          have hblockish : isBlockCommentLine (getLineAt lines (n + 1)) = true := by
            simp only [Bool.not_eq_true] at h1
            simp [isBlockCommentLine, h1, h2]
          simp only [collectCommentLines, takeRunSpec, if_neg hb, if_neg h1,
            if_pos h2, hcomment, if_pos rfl, hblockish]
          rw [ih (getLineAt lines (n + 1) :: acc) true (by simp)]
          simp
        · by_cases h3 : sEnds (getLineAt lines (n + 1)) "*/"
          · have hcomment : isCommentLine (getLineAt lines (n + 1)) = true := by
              simp [isCommentLine, h3]
            have hblockish : isBlockCommentLine (getLineAt lines (n + 1)) = true := by
              simp only [Bool.not_eq_true] at h1
              simp [isBlockCommentLine, h1, h3]
            simp only [collectCommentLines, takeRunSpec, if_neg hb, if_neg h1,
              if_neg h2, if_pos h3, hcomment, if_pos rfl, hblockish]
            rw [ih (getLineAt lines (n + 1) :: acc) true (by simp)]
            simp
          · have hcomment : isCommentLine (getLineAt lines (n + 1)) = false := by
              simp only [Bool.not_eq_true, Bool.or_eq_false_iff] at h1 h2 h3
              simp [isCommentLine, h1, h2.1, h2.2, h3]
            simp [collectCommentLines, takeRunSpec, hb, h1, h2, h3, hacc,
              hcomment]

theorem collect_empty_eq (lines : List String) :
    ∀ n, collectCommentLines n lines [] false = commentScanSpec lines n := by
  intro n
  induction n with
  | zero => simp [collectCommentLines, commentScanSpec]
  | succ n ih =>
    by_cases hb : getLineAt lines (n + 1) = ""
    · simp [collectCommentLines, commentScanSpec, hb, ih]
    · by_cases h1 : sStarts (getLineAt lines (n + 1)) "//"
      · have hcomment : isCommentLine (getLineAt lines (n + 1)) = true := by
          simp [isCommentLine, h1]
        have hblockish : isBlockCommentLine (getLineAt lines (n + 1)) = false := by
          simp [isBlockCommentLine, h1]
        simp only [collectCommentLines, commentScanSpec, takeRunSpec,
          if_neg hb, if_pos h1, hcomment, if_pos rfl, hblockish]
        rw [collect_nonempty_eq lines n [getLineAt lines (n + 1)] false (by simp)]
        simp
      · by_cases h2 : (sStarts (getLineAt lines (n + 1)) "*" ||
            sStarts (getLineAt lines (n + 1)) "/*")
        · have hcomment : isCommentLine (getLineAt lines (n + 1)) = true := by
            simp only [isCommentLine]
            rcases Bool.or_eq_true_iff.mp h2 with h | h <;> simp [h]
          have hblockish : isBlockCommentLine (getLineAt lines (n + 1)) = true := by
            simp only [Bool.not_eq_true] at h1
            simp [isBlockCommentLine, h1, h2]
          simp only [collectCommentLines, commentScanSpec, takeRunSpec,
            if_neg hb, if_neg h1, if_pos h2, hcomment, if_pos rfl, hblockish]
          rw [collect_nonempty_eq lines n [getLineAt lines (n + 1)] true (by simp)]
          simp
        · by_cases h3 : sEnds (getLineAt lines (n + 1)) "*/"
          · have hcomment : isCommentLine (getLineAt lines (n + 1)) = true := by
              simp [isCommentLine, h3]
            have hblockish : isBlockCommentLine (getLineAt lines (n + 1)) = true := by
              simp only [Bool.not_eq_true] at h1
              simp [isBlockCommentLine, h1, h3]
            simp only [collectCommentLines, commentScanSpec, takeRunSpec,
              if_neg hb, if_neg h1, if_neg h2, if_pos h3, hcomment, if_pos rfl,
              hblockish]
            rw [collect_nonempty_eq lines n [getLineAt lines (n + 1)] true (by simp)]
            simp
          · have hcomment : isCommentLine (getLineAt lines (n + 1)) = false := by
              simp only [Bool.not_eq_true, Bool.or_eq_false_iff] at h1 h2 h3
              simp [isCommentLine, h1, h2.1, h2.2, h3]
            simp [collectCommentLines, commentScanSpec, takeRunSpec, hb, h1,
              h2, h3, hcomment]

/-- Claim C10 (amended): `extractCommentForNode` captures the comment block ending on the line directly above the declaration after skipping any blank lines in between; `commentCaptureSpec` states this rule directly and agrees with the source extractor on every input. (The original claim required the comment to sit immediately above with no blank line; blank lines are in fact skipped.) -/
theorem c10_comment_capture_amended :
    ∀ (lines : List String) (nodeLine : Nat),
      extractCommentForNode lines nodeLine = commentCaptureSpec lines nodeLine := by
  intro lines nodeLine
  unfold extractCommentForNode commentCaptureSpec
  rw [collect_empty_eq]

/-- Claim C10 counterexample: a comment separated from the declaration by a blank line is still captured, refuting the reading that only the immediately preceding line is consulted. -/
theorem c10_comment_capture_counterexample :
    extractCommentForNode ["// hello", "", "const x = 1;"] 3 = some "hello" ∧
    getLineAt ["// hello", "", "const x = 1;"] 2 = "" := by
  constructor <;> decide

end BubbleLab

namespace BubbleLab

theorem chSplitNL_no_nl : ∀ (cs cur : List Char), (∀ c ∈ cur, c ≠ '\n') →
    ∀ x ∈ chSplitNL cs cur, noNL x = true := by
  intro cs
  induction cs with
  | nil =>
    intro cur hcur x hx
    simp only [chSplitNL, List.mem_singleton] at hx
    subst hx
    simp only [noNL, ofCh, List.all_eq_true]
    intro c hc
    simp only [Bool.not_eq_true', beq_eq_false_iff_ne, ne_eq]
    exact hcur c (List.mem_reverse.mp hc)
  | cons c rest ih =>
    intro cur hcur x hx
    by_cases hc : (c == '\n') = true
    · rw [chSplitNL, if_pos hc] at hx
      rcases List.mem_cons.mp hx with hx | hx
      · subst hx
        simp only [noNL, ofCh, List.all_eq_true]
        intro d hd
        simp only [Bool.not_eq_true', beq_eq_false_iff_ne, ne_eq]
        exact hcur d (List.mem_reverse.mp hd)
      · exact ih [] (by simp) x hx
    · rw [chSplitNL, if_neg hc] at hx
      refine ih (c :: cur) ?_ x hx
      intro d hd
      rcases List.mem_cons.mp hd with h | h
      · subst h; simpa using hc
      · exact hcur d h

theorem splitLines_no_nl (s : String) : ∀ x ∈ splitLines s, noNL x = true :=
  chSplitNL_no_nl s.data [] (by simp)

theorem chSplitNL_all_no_nl : ∀ (cs : List Char), (∀ c ∈ cs, c ≠ '\n') →
    ∀ cur, chSplitNL cs cur = [ofCh (cur.reverse ++ cs)] := by
  intro cs
  induction cs with
  | nil => intro _ cur; simp [chSplitNL]
  | cons c rest ih =>
    intro h cur
    have hc : ¬ ((c == '\n') = true) := by
      simpa using h c (List.mem_cons_self c rest)
    rw [chSplitNL, if_neg hc,
      ih (fun d hd => h d (List.mem_cons_of_mem c hd)) (c :: cur)]
    simp

theorem chSplitNL_append_nl (rest : List Char) :
    ∀ (xs : List Char), (∀ c ∈ xs, c ≠ '\n') → ∀ cur,
      chSplitNL (xs ++ '\n' :: rest) cur =
        ofCh (cur.reverse ++ xs) :: chSplitNL rest [] := by
  intro xs
  induction xs with
  | nil => intro _ cur; simp [chSplitNL]
  | cons c xs ih =>
    intro h cur
    have hc : ¬ ((c == '\n') = true) := by
      simpa using h c (List.mem_cons_self c xs)
    rw [List.cons_append, chSplitNL, if_neg hc,
      ih (fun d hd => h d (List.mem_cons_of_mem c hd)) (c :: cur)]
    simp

theorem noNL_chars {s : String} (h : noNL s = true) : ∀ c ∈ s.data, c ≠ '\n' := by
  intro c hc
  have := (List.all_eq_true.mp h) c hc
  simpa [beq_eq_false_iff_ne] using this

theorem splitLines_single {s : String} (h : noNL s = true) :
    splitLines s = [s] := by
  unfold splitLines
  rw [chSplitNL_all_no_nl s.data (noNL_chars h) []]
  simp [ofCh]

theorem splitLines_cons {x : String} (tail : List String) (hx : noNL x = true)
    (ht : tail ≠ []) :
    splitLines (sJoin "\n" (x :: tail)) = x :: splitLines (sJoin "\n" tail) := by
  have hjoin : sJoin "\n" (x :: tail) = x ++ "\n" ++ sJoin "\n" tail := by
    cases tail with
    | nil => exact absurd rfl ht
    | cons y r => simp [sJoin, String.append_assoc]
  rw [hjoin]
  unfold splitLines
  have hdata : (x ++ "\n" ++ sJoin "\n" tail).data =
      x.data ++ '\n' :: (sJoin "\n" tail).data := by
    simp [String.data_append]
  rw [hdata, chSplitNL_append_nl _ x.data (noNL_chars hx) []]
  simp [ofCh]

theorem splitLines_append (tail : List String) (ht : tail ≠ []) :
    ∀ (pre : List String), (∀ x ∈ pre, noNL x = true) →
      splitLines (sJoin "\n" (pre ++ tail)) =
        pre ++ splitLines (sJoin "\n" tail) := by
  intro pre
  induction pre with
  | nil => intro _; simp
  | cons x pre ih =>
    intro h
    have hne : pre ++ tail ≠ [] := by
      intro hx
      rcases List.append_eq_nil.mp hx with ⟨_, h2⟩
      exact ht h2
    rw [List.cons_append,
      splitLines_cons (pre ++ tail) (h x (List.mem_cons_self x pre)) hne,
      ih (fun y hy => h y (List.mem_cons_of_mem x hy))]
    simp

/-- Claim C9: `reassignVariable` returns an error and leaves the script unchanged for an unknown variable id and when neither the declaration nor the assignment regex matches the recorded declaration line; `injectLines` errors on a line number below 1 or beyond end-of-script+1 and otherwise places the first injected line at the requested 1-based line. -/
theorem c9_mutation_guarantees :
    (∀ (st : BubbleState) (vid : Nat) (nv : String),
      st.scriptVars.find? (fun p => p.1 = vid) = none →
      (applyReassign st vid nv).1 = st ∧
        ((applyReassign st vid nv).2).isSome = true) ∧
    (∀ (st : BubbleState) (vid : Nat) (nv name : String) (loc : Loc),
      (st.scriptVars.find? (fun p => p.1 = vid)).map (·.2) = some name →
      (st.varLocs.find? (fun p => p.1 = vid)).map (·.2) = some loc →
      testDeclPattern name (declLineAt st loc.startLine) = false →
      testAssignPattern name (declLineAt st loc.startLine) = false →
      (applyReassign st vid nv).1 = st ∧
        ((applyReassign st vid nv).2).isSome = true) ∧
    (∀ (st : BubbleState) (lines : List String) (n : Nat),
      n < 1 ∨ (splitLines st.currentScript).length < n - 1 →
      (applyInject st lines n).1 = st ∧
        ((applyInject st lines n).2).isSome = true) ∧
    (∀ (st : BubbleState) (l0 : String) (rest : List String) (n : Nat),
      1 ≤ n → n - 1 ≤ (splitLines st.currentScript).length → noNL l0 = true →
      (splitLines ((applyInject st (l0 :: rest) n).1.currentScript)).get?
        (n - 1) = some l0) := by
  refine ⟨?_, ?_, ?_, ?_⟩
  · intro st vid nv h
    simp [applyReassign, reassignVariable, h]
  · intro st vid nv name loc h1 h2 h3 h4
    simp [applyReassign, reassignVariable, h1, h2, h3, h4]
  · intro st lines n h
    rcases h with h | h
    · simp [applyInject, injectLines, h]
    · have hn : ¬ n < 1 := by omega
      simp [applyInject, injectLines, hn, Nat.lt_iff_add_one_le, h,
        Nat.not_le.mpr h]
  · intro st l0 rest n h1 h2 hnl
    have hn : ¬ n < 1 := by omega
    simp only [applyInject, injectLines, if_neg hn]
    rw [if_neg (by omega)]
    simp only
    have hpre : ∀ x ∈ (splitLines st.currentScript).take (n - 1),
        noNL x = true := fun x hx =>
      splitLines_no_nl st.currentScript x (List.mem_of_mem_take hx)
    have hassoc :
        (splitLines st.currentScript).take (n - 1) ++ (l0 :: rest) ++
            (splitLines st.currentScript).drop (n - 1) =
          (splitLines st.currentScript).take (n - 1) ++
            (l0 :: (rest ++ (splitLines st.currentScript).drop (n - 1))) := by
      simp
    rw [hassoc,
      splitLines_append
        (l0 :: (rest ++ (splitLines st.currentScript).drop (n - 1)))
        (by simp) _ hpre]
    have hlen : ((splitLines st.currentScript).take (n - 1)).length = n - 1 := by
      simp [List.length_take]
      omega
    rw [List.get?_append_right (by omega), hlen, Nat.sub_self]
    cases hrest : rest ++ (splitLines st.currentScript).drop (n - 1) with
    | nil =>
      rw [show sJoin "\n" [l0] = l0 from rfl, splitLines_single hnl]
      rfl
    | cons y r =>
      rw [splitLines_cons (y :: r) hnl (by simp)]
      rfl

end BubbleLab

namespace BubbleLab

/-- Claim C9 witness: the mutation guarantees at the concrete two-line state `c9State`. -/
theorem c9_mutation_guarantees_witness :
    (applyReassign c9State 99 "v").1 = c9State ∧
      ((applyReassign c9State 99 "v").2).isSome = true ∧
      (applyReassign c9State 3 "v").1 = c9State ∧
      ((applyReassign c9State 3 "v").2).isSome = true ∧
      (applyInject c9State ["let z = 2;"] 0).1 = c9State ∧
      ((applyInject c9State ["let z = 2;"] 0).2).isSome = true ∧
      (splitLines ((applyInject c9State ["let z = 2;"] 2).1.currentScript)).get?
        1 = some "let z = 2;" := by
  refine ⟨(c9_mutation_guarantees.1 c9State 99 "v" (by decide)).1,
    (c9_mutation_guarantees.1 c9State 99 "v" (by decide)).2,
    (c9_mutation_guarantees.2.1 c9State 3 "v" "zz" ⟨2, 0, 2, 1⟩
      (by decide) (by decide) (by decide) (by decide)).1,
    (c9_mutation_guarantees.2.1 c9State 3 "v" "zz" ⟨2, 0, 2, 1⟩
      (by decide) (by decide) (by decide) (by decide)).2,
    (c9_mutation_guarantees.2.2.1 c9State ["let z = 2;"] 0
      (Or.inl (by decide))).1,
    (c9_mutation_guarantees.2.2.1 c9State ["let z = 2;"] 0
      (Or.inl (by decide))).2,
    c9_mutation_guarantees.2.2.2 c9State "let z = 2;" [] 2
      (by decide) (by decide) (by decide)⟩

end BubbleLab

namespace BubbleLab

/-- Claim C6: `getVarsForLine` returns exactly the variables of scope chains whose scope covers the line, excluding globals and variables not yet declared at that line; in the concrete `c6SM` tree, `inner` and `outer` are visible at line 6 and `inner` is not visible at line 2. -/
theorem c6_scope_visibility :
    (∀ (sm : ScopeManager) (line : Nat) (v : SVar),
      v ∈ getVarsForLine sm line ↔
        ((∃ sc ∈ sm.scopes, scopeContainsLine sc line = true ∧
            v ∈ sc.chainVars) ∧
          isGlobalVariable v = false ∧
          isVariableDeclaredBeforeLine v line = true)) ∧
    (⟨"inner", 3, [5], "block"⟩ : SVar) ∈ getVarsForLine c6SM 6 ∧
    (⟨"outer", 1, [1], "module"⟩ : SVar) ∈ getVarsForLine c6SM 6 ∧
    (⟨"inner", 3, [5], "block"⟩ : SVar) ∉ getVarsForLine c6SM 2 := by
  refine ⟨?_, by decide, by decide, by decide⟩
  intro sm line v
  simp only [getVarsForLine, List.mem_filter, List.mem_flatMap,
    Bool.not_eq_true', Bool.not_eq_eq_eq_not, Bool.not_true]
  tauto

/-- Claim C4: `extractParameterValue` classifies bubble parameters by syntactic shape (`process.env.` member accesses as env, identifiers and other member accesses as variable, literals and expression-free templates as string, array/object literals as array/object, other call/conditional/binary expressions as expression), and `addVariableReferencesToParameters` resolves a variable parameter's base name in scope to its numeric `variableId`. -/
theorem c4_parameter_classification :
    (∀ r, sStarts r "process.env." = true →
      extractParameterValue (.member r) = (r, "env")) ∧
    (∀ r, sStarts r "process.env." = true →
      extractParameterValue (.chainE r) = (r, "env")) ∧
    (∀ r, sStarts r "process.env." = false →
      extractParameterValue (.member r) = (r, "variable")) ∧
    (∀ n, extractParameterValue (.ident n) = (n, "variable")) ∧
    (∀ (p : BubbleParam) (ctx : Nat) (sm : ScopeManager) (base : String)
        (vid : Nat),
      p.ptype = "variable" →
      extractBaseVariableName p.value = some base →
      findVariableIdByName base ctx sm = some vid →
      addVariableReferencesToParameters [p] ctx sm =
        [{ p with variableId := some vid }]) ∧
    (∀ s raw, extractParameterValue (.litStr s raw) = (s, "string")) ∧
    (∀ cooked k raw,
      extractParameterValue (.template cooked k raw) = (raw, "string")) ∧
    (∀ es raw, extractParameterValue (.arrayLit es raw) = (raw, "array")) ∧
    (∀ ps raw, extractParameterValue (.objectLit ps raw) = (raw, "object")) ∧
    (∀ t c a raw, extractParameterValue (.condE t c a raw) = (raw, "expression")) ∧
    (∀ f args raw,
      extractParameterValue (.callOther f args raw) = (raw, "expression")) ∧
    (∀ l rr raw, extractParameterValue (.binE l rr raw) = (raw, "expression")) := by
  refine ⟨?_, ?_, ?_, ?_, ?_, ?_, ?_, ?_, ?_, ?_, ?_, ?_⟩
  · intro r h; simp [extractParameterValue, exprRaw, h]
  · intro r h; simp [extractParameterValue, exprRaw, h]
  · intro r h; simp [extractParameterValue, exprRaw, h]
  · intro n; simp [extractParameterValue, exprRaw]
  · intro p ctx sm base vid hp hb hf
    simp [addVariableReferencesToParameters, hp, hb, hf]
  · intro s raw; simp [extractParameterValue, exprRaw]
  · intro cooked k raw; simp [extractParameterValue, exprRaw]
  · intro es raw; simp [extractParameterValue, exprRaw]
  · intro ps raw; simp [extractParameterValue, exprRaw]
  · intro t c a raw; simp [extractParameterValue, exprRaw]
  · intro f args raw; simp [extractParameterValue, exprRaw]
  · intro l rr raw; simp [extractParameterValue, exprRaw]

/-- Claim C4 witness: the classification and variable-id resolution at concrete parameters. -/
theorem c4_parameter_classification_witness :
    extractParameterValue (.member "process.env.KEY") =
      ("process.env.KEY", "env") ∧
    extractParameterValue (.ident "someVar") = ("someVar", "variable") ∧
    addVariableReferencesToParameters
      [⟨"a", "someVar", "variable", none, "object-property"⟩] 5 c4SM =
      [⟨"a", "someVar", "variable", some 3, "object-property"⟩] ∧
    extractParameterValue (.litStr "literal" "...") = ("literal", "string") ∧
    extractParameterValue (.condE (.ident "cond") (.litNum 1 "1")
      (.litNum 2 "2") "cond ? 1 : 2") = ("cond ? 1 : 2", "expression") := by
  refine ⟨c4_parameter_classification.1 _ (by decide),
    c4_parameter_classification.2.2.2.1 _,
    ?_,
    c4_parameter_classification.2.2.2.2.2.1 _ _,
    c4_parameter_classification.2.2.2.2.2.2.2.2.2.1 _ _ _ _⟩
  exact c4_parameter_classification.2.2.2.2.1 _ 5 c4SM "someVar" 3 rfl
    (by decide) (by decide)

/-- Claim C5: `validateTriggerEvent` reports a missing trigger event, rejects a `schedule/cron` trigger with a missing or invalid cron schedule, and accepts a flow whose class declares `schedule/cron` with a cron schedule the validator accepts; `getBubbleTriggerEventType` reads that schedule from the class. -/
theorem c5_trigger_validation :
    (validateTriggerEvent none = ["Missing trigger event"]) ∧
    (∀ t : BubbleTrigger, t.ttype = "schedule/cron" → t.cronSchedule = none →
      validateTriggerEvent (some t) ≠ []) ∧
    (∀ (t : BubbleTrigger) (s : String), t.ttype = "schedule/cron" →
      t.cronSchedule = some s → (validateCronExpression s).valid = false →
      validateTriggerEvent (some t) ≠ []) ∧
    (∀ (sched : String) (fb : Option BubbleTrigger),
      (validateCronExpression sched).valid = true →
      getBubbleTriggerEventType (cronProgramOf sched) fb =
        some ⟨"schedule/cron", some sched⟩ ∧
      validateTriggerEvent (some ⟨"schedule/cron", some sched⟩) = []) := by
  refine ⟨rfl, ?_, ?_, ?_⟩
  · intro t ht hc
    simp [validateTriggerEvent, ht, hc]
  · intro t s ht hc hv
    simp [validateTriggerEvent, ht, hc, validateCronExpressionOpt, hv]
  · intro sched fb hv
    constructor
    · simp [getBubbleTriggerEventType, getBubbleTriggerEventTypeAst,
        cronProgramOf, tryClassTrigger]
    · simp [validateTriggerEvent, validateCronExpressionOpt, hv]

/-- Claim C5 witness: validation outcomes at concrete triggers and the concrete cron flow class. -/
theorem c5_trigger_validation_witness :
    validateTriggerEvent (some ⟨"schedule/cron", none⟩) ≠ [] ∧
    validateTriggerEvent (some ⟨"schedule/cron", some "99 99 * * *"⟩) ≠ [] ∧
    getBubbleTriggerEventType (cronProgramOf "0 0 * * *") none =
      some ⟨"schedule/cron", some "0 0 * * *"⟩ ∧
    validateTriggerEvent (some ⟨"schedule/cron", some "0 0 * * *"⟩) = [] := by
  refine ⟨c5_trigger_validation.2.1 _ rfl rfl,
    c5_trigger_validation.2.2.1 _ "99 99 * * *" rfl rfl (by decide),
    (c5_trigger_validation.2.2.2 "0 0 * * *" none (by decide)).1,
    (c5_trigger_validation.2.2.2 "0 0 * * *" none (by decide)).2⟩

end BubbleLab

namespace BubbleLab

/-- Claim C8: dependency-graph construction terminates on every registry (it is a total function defined by well-founded recursion on the names not yet seen); a bubble name already on the recursion path becomes a leaf with empty dependencies, and in the concrete cyclic registry `c8Factory` the nested `ai-agent` reappears as a synthetic node carrying only its tool child, without the registry dependency its root occurrence expands. -/
theorem c8_cycle_termination :
    (∀ (factory : BubbleFactory) (bubbleName : String) (seen : Finset String)
        (tools : Option (List String)) (puid : String)
        (ctrs : List (String × Nat)) (evid : Option Int) (sup : Bool)
        (ivn : Option String),
      bubbleName ∈ seen →
        (buildDependencyGraph factory bubbleName seen tools puid ctrs evid sup
            ivn).1.dependencies = [] ∧
        (buildDependencyGraph factory bubbleName seen tools puid ctrs evid sup
            ivn).1.name = bubbleName) ∧
    (c8Root.name = "ai-agent" ∧ c8Root.variableId = 42 ∧
      c8Root.dependencies.map (fun d => (d.name, d.nodeType)) =
        [("logger", "service"), ("helper", "tool")] ∧
      c8Root.dependencies.map (fun d => d.dependencies.map fun e =>
          (e.name, e.nodeType, e.dependencies.map fun g =>
            (g.name, g.dependencies))) =
        [[], [("ai-agent", "service", [("sub-tool", [])])]]) := by
  constructor
  · intro factory bubbleName seen tools puid ctrs evid sup ivn h
    rw [buildDependencyGraph.eq_def]
    simp only [dif_pos h, DepNode.dependencies, DepNode.name, and_self]
  · simp only [c8Root, c8Factory]
    simp +decide [buildDependencyGraph, buildDepSpecs, buildDepInstances,
      buildDepsPlain, buildToolsSynth, buildToolsRoot, getMetadata, depUniv,
      ctrGet, ctrSet, DepNode.name, DepNode.nodeType, DepNode.variableId,
      DepNode.dependencies]

/-- Claim C8 witness: the already-seen leaf rule at a concrete registry and name. -/
theorem c8_cycle_termination_witness :
    (buildDependencyGraph c8Factory "helper" {"helper"} none "p" [] none false
        none).1.dependencies = [] ∧
      (buildDependencyGraph c8Factory "helper" {"helper"} none "p" [] none
          false none).1.name = "helper" :=
  c8_cycle_termination.1 c8Factory "helper" {"helper"} none "p" [] none false
    none (by decide)

end BubbleLab

namespace BubbleLab

/-- Claim C2: parsing is deterministic across parser instances: `parseScript` does not depend on the incoming variable-id counter (it is reset before each parse), and a dependency node's `variableId` is the pure hash of its `uniqueId` whenever no explicit id is supplied. -/
theorem c2_parse_determinism :
    (∀ (fuel : Nat) (scriptLines : List String)
        (lookup : List (String × BubbleInfo)) (factory : BubbleFactory)
        (toolsParsed : String → Option (List String)) (prog : Program)
        (counter1 counter2 : Nat),
      parseScript fuel scriptLines lookup factory toolsParsed prog counter1 =
        parseScript fuel scriptLines lookup factory toolsParsed prog
          counter2) ∧
    (∀ (factory : BubbleFactory) (bubbleName : String) (seen : Finset String)
        (tools : Option (List String)) (puid : String)
        (ctrs : List (String × Nat)) (sup : Bool) (ivn : Option String),
      (buildDependencyGraph factory bubbleName seen tools puid ctrs none sup
          ivn).1.variableId =
        Int.ofNat (hashUniqueIdToVarId
          ((buildDependencyGraph factory bubbleName seen tools puid ctrs none
              sup ivn).1.uniqueId))) := by
  constructor
  · intro fuel scriptLines lookup factory toolsParsed prog c1 c2
    rfl
  · intro factory bubbleName seen tools puid ctrs sup ivn
    rw [buildDependencyGraph.eq_def]
    repeat' split
    all_goals simp_all [DepNode.variableId, DepNode.uniqueId]

end BubbleLab

namespace BubbleLab

theorem jsObjSet_mem {fields : List (String × Json)} {k : String} {v : Json}
    {x : String × Json} (h : x ∈ jsObjSet fields k v) :
    x ∈ fields ∨ x = (k, v) := by
  unfold jsObjSet at h
  split at h
  · rcases List.mem_map.mp h with ⟨y, hy, hxy⟩
    by_cases hk : y.1 = k
    · right
      rw [← hxy, if_pos hk]
    · left
      rw [← hxy, if_neg hk]
      exact hy
  · rcases List.mem_append.mp h with h | h
    · exact Or.inl h
    · right
      simpa using h

theorem find?_map_keyrep (key : String) (repl : String × Json) :
    ∀ (fields : List (String × Json)), (∃ y ∈ fields, y.1 = key) →
      ((fields.map fun f => if f.1 = key then repl else f).find?
          (fun f => f.1 = key) = some repl) ∨ repl.1 ≠ key := by
  intro fields
  induction fields with
  | nil => simp
  | cons p rest ih =>
    intro h
    by_cases hrk : repl.1 = key
    · left
      by_cases hp : p.1 = key
      · simp [hp, List.find?, hrk]
      · rcases h with ⟨y, hy, hyk⟩
        rcases List.mem_cons.mp hy with rfl | hy
        · exact absurd hyk hp
        · have := ih ⟨y, hy, hyk⟩
          rcases this with hfind | hcontra
          · simpa [List.find?, hp, if_neg hp] using hfind
          · exact absurd hrk hcontra
    · exact Or.inr hrk

theorem find?_map_keyrep_eq (key : String) (repl : String × Json)
    (hrk : repl.1 = key) (fields : List (String × Json))
    (h : ∃ y ∈ fields, y.1 = key) :
    (fields.map fun f => if f.1 = key then repl else f).find?
      (fun f => f.1 = key) = some repl := by
  rcases find?_map_keyrep key repl fields h with h' | h'
  · exact h'
  · exact absurd hrk h'

theorem find?_map_keyrep_ne (key key' : String) (repl : String × Json)
    (hrk : repl.1 = key) (hne : key' ≠ key) :
    ∀ (fields : List (String × Json)),
      (fields.map fun f => if f.1 = key then repl else f).find?
        (fun f => f.1 = key') = fields.find? (fun f => f.1 = key') := by
  intro fields
  induction fields with
  | nil => simp
  | cons p rest ih =>
    by_cases hp : p.1 = key
    · have hnotp : ¬ p.1 = key' := by rw [hp]; exact fun hx => hne hx.symm
      have hnotr : ¬ repl.1 = key' := by rw [hrk]; exact fun hx => hne hx.symm
      simp only [List.map_cons, if_pos hp, List.find?]
      rw [decide_eq_false hnotr, decide_eq_false hnotp]
      exact ih
    · simp only [List.map_cons, if_neg hp, List.find?]
      cases hd : decide (p.1 = key') with
      | true => rfl
      | false => exact ih

theorem lookup_jsObjSet_self (fields : List (String × Json)) (k : String)
    (v : Json) : (Json.obj (jsObjSet fields k v)).lookup k = some v := by
  simp only [Json.lookup]
  unfold jsObjSet
  split
  · rename_i hany
    rw [find?_map_keyrep_eq k (k, v) rfl fields
      (by simpa using List.any_eq_true.mp hany)]
    rfl
  · rename_i hany
    have hnone : fields.find? (fun f => f.1 = k) = none := by
      rw [List.find?_eq_none]
      intro x hx
      simp only [decide_eq_true_eq]
      intro hxk
      exact hany (List.any_eq_true.mpr ⟨x, hx, by simpa using hxk⟩)
    rw [List.find?_append, hnone]
    simp [List.find?]

theorem lookup_jsObjSet_ne (fields : List (String × Json)) (k k' : String)
    (v : Json) (hne : k' ≠ k) :
    (Json.obj (jsObjSet fields k v)).lookup k' =
      (Json.obj fields).lookup k' := by
  simp only [Json.lookup]
  unfold jsObjSet
  split
  · rw [find?_map_keyrep_ne k k' (k, v) rfl hne]
  · rw [List.find?_append]
    cases hf : fields.find? (fun f => f.1 = k') with
    | some q => rfl
    | none =>
      simp only [Option.none_or]
      rw [List.find?]
      rw [decide_eq_false (fun hx : k = k' => hne hx.symm)]
      rfl

theorem lookup_objSpreadSet_self (j : Json) (k : String) (v : Json) :
    (objSpreadSet j k v).lookup k = some v := by
  cases j with
  | obj fields => exact lookup_jsObjSet_self fields k v
  | null => simp [objSpreadSet, Json.lookup, List.find?]
  | bool b => simp [objSpreadSet, Json.lookup, List.find?]
  | num n => simp [objSpreadSet, Json.lookup, List.find?]
  | str s => simp [objSpreadSet, Json.lookup, List.find?]
  | arr a => simp [objSpreadSet, Json.lookup, List.find?]

theorem lookup_objSpreadSet_ne (j : Json) (k k' : String) (v : Json)
    (hne : k' ≠ k) (h : j.lookup k' = none) :
    (objSpreadSet j k v).lookup k' = none := by
  cases j with
  | obj fields => rw [objSpreadSet, lookup_jsObjSet_ne fields k k' v hne]; exact h
  | null => simp [objSpreadSet, Json.lookup, List.find?, decide_eq_false (fun hx : k = k' => hne hx.symm)]
  | bool b => simp [objSpreadSet, Json.lookup, List.find?, decide_eq_false (fun hx : k = k' => hne hx.symm)]
  | num n => simp [objSpreadSet, Json.lookup, List.find?, decide_eq_false (fun hx : k = k' => hne hx.symm)]
  | str s => simp [objSpreadSet, Json.lookup, List.find?, decide_eq_false (fun hx : k = k' => hne hx.symm)]
  | arr a => simp [objSpreadSet, Json.lookup, List.find?, decide_eq_false (fun hx : k = k' => hne hx.symm)]

end BubbleLab

namespace BubbleLab

theorem propsNoDefault_top {j : Json} (h : propsNoDefault j = true) :
    j.lookup "default" = none := by
  unfold propsNoDefault at h
  simp only [Bool.and_eq_true] at h
  exact Option.isNone_iff_eq_none.mp h.1

theorem propsNoDefault_mem {j : Json} (h : propsNoDefault j = true) :
    ∀ p ∈ schemaProps j, (p.2).lookup "default" = none := by
  unfold propsNoDefault at h
  simp only [Bool.and_eq_true] at h
  intro p hp
  exact Option.isNone_iff_eq_none.mp (List.all_eq_true.mp h.2 p hp)

theorem propsNoDefault_mk {j : Json} (h1 : j.lookup "default" = none)
    (h2 : ∀ p ∈ schemaProps j, (p.2).lookup "default" = none) :
    propsNoDefault j = true := by
  unfold propsNoDefault
  simp only [Bool.and_eq_true]
  exact ⟨Option.isNone_iff_eq_none.mpr h1,
    List.all_eq_true.mpr fun p hp => Option.isNone_iff_eq_none.mpr (h2 p hp)⟩

theorem eventKey_no_default (key : String) (j : Json)
    (h : eventKeyToSchema key = some j) : propsNoDefault j = true := by
  unfold eventKeyToSchema at h
  split_ifs at h
  all_goals first
    | exact Option.noConfusion h
    | (injection h with h; subst h; rfl)

theorem objstep_all_none (sl : List String) (prog : Program) (fuel : Nat)
    (hIH : ∀ (t : TypeNode) (j : Json),
      tsTypeToJsonSchema sl prog fuel t = some j → j.lookup "default" = none) :
    ∀ (members : List TypeMember) (acc : List (String × Json) × List String),
      (∀ p ∈ acc.1, (p.2).lookup "default" = none) →
      ∀ p ∈ (members.foldl (fun (acc : List (String × Json) × List String) m =>
        match m with
        | .propSig key optional ty line =>
          (match (match key with
                  | .ik n => some n
                  | .sk s => some s
                  | .otherK => none) with
           | none => acc
           | some keyName =>
             let propSchema : Json :=
               match ty with
               | some tnode => (tsTypeToJsonSchema sl prog fuel tnode).getD (.obj [])
               | none => .obj []
             let propSchema :=
               match extractCommentForNode sl line with
               | some d => objSpreadSet propSchema "description" (.str d)
               | none => propSchema
             ((jsObjSet acc.1 keyName propSchema),
              if optional then acc.2 else acc.2 ++ [keyName]))
        | .otherM => acc) acc).1, (p.2).lookup "default" = none := by
  intro members
  induction members with
  | nil => intro acc hacc p hp; exact hacc p hp
  | cons m rest ih =>
    intro acc hacc p hp
    rw [List.foldl_cons] at hp
    refine ih _ ?_ p hp
    cases m with
    | otherM => exact hacc
    | propSig key optional ty line =>
      have hbase : (match ty with
          | some tnode => (tsTypeToJsonSchema sl prog fuel tnode).getD (.obj [])
          | none => (.obj [] : Json)).lookup "default" = none := by
        cases ty with
        | none => rfl
        | some tnode =>
          cases ht : tsTypeToJsonSchema sl prog fuel tnode with
          | none => simp [ht]; rfl
          | some s => simpa [ht] using hIH tnode s ht
      cases key with
      | otherK => exact hacc
      | ik n =>
        intro q hq
        rcases jsObjSet_mem hq with hq | hq
        · exact hacc q hq
        · rw [hq]
          cases hc : extractCommentForNode sl line with
          | none => exact hbase
          | some d =>
            exact lookup_objSpreadSet_ne _ "description" "default" _
              (by decide) hbase
      | sk s =>
        intro q hq
        rcases jsObjSet_mem hq with hq | hq
        · exact hacc q hq
        · rw [hq]
          cases hc : extractCommentForNode sl line with
          | none => exact hbase
          | some d =>
            exact lookup_objSpreadSet_ne _ "description" "default" _
              (by decide) hbase

end BubbleLab

namespace BubbleLab

theorem schema_no_default (sl : List String) (prog : Program) : ∀ (fuel : Nat),
    (∀ (t : TypeNode) (j : Json), tsTypeToJsonSchema sl prog fuel t = some j →
      propsNoDefault j = true) ∧
    (∀ (members : List TypeMember),
      propsNoDefault (objectTypeToJsonSchema sl prog fuel members) = true) ∧
    (∀ (n : String) (j : Json), resolveTypeNameToJson sl prog fuel n = some j →
      propsNoDefault j = true) := by
  intro fuel
  induction fuel with
  | zero =>
    refine ⟨?_, ?_, ?_⟩
    · intro t j h
      exact Option.noConfusion h
    · intro members
      rfl
    · intro n j h
      exact Option.noConfusion h
  | succ fuel ih =>
    obtain ⟨ih1, ih2, ih3⟩ := ih
    refine ⟨?_, ?_, ?_⟩
    · intro t j h
      cases t with
      | tsString => simp only [tsTypeToJsonSchema, Option.some.injEq] at h; subst h; rfl
      | tsNumber => simp only [tsTypeToJsonSchema, Option.some.injEq] at h; subst h; rfl
      | tsBoolean => simp only [tsTypeToJsonSchema, Option.some.injEq] at h; subst h; rfl
      | tsNull => simp only [tsTypeToJsonSchema, Option.some.injEq] at h; subst h; rfl
      | tsAny => simp only [tsTypeToJsonSchema, Option.some.injEq] at h; subst h; rfl
      | tsUnknown => simp only [tsTypeToJsonSchema, Option.some.injEq] at h; subst h; rfl
      | tsUndefined => simp only [tsTypeToJsonSchema, Option.some.injEq] at h; subst h; rfl
      | tsLitStr s => simp only [tsTypeToJsonSchema, Option.some.injEq] at h; subst h; rfl
      | tsLitNum n => simp only [tsTypeToJsonSchema, Option.some.injEq] at h; subst h; rfl
      | tsLitBool b => simp only [tsTypeToJsonSchema, Option.some.injEq] at h; subst h; rfl
      | tsLitOther => simp only [tsTypeToJsonSchema, Option.some.injEq] at h; subst h; rfl
      | tsOther => simp only [tsTypeToJsonSchema, Option.some.injEq] at h; subst h; rfl
      | tsArray elem =>
        simp only [tsTypeToJsonSchema, Option.some.injEq] at h; subst h; rfl
      | tsUnion types =>
        simp only [tsTypeToJsonSchema, Option.some.injEq] at h; subst h; rfl
      | tsInter types =>
        simp only [tsTypeToJsonSchema, Option.some.injEq] at h; subst h; rfl
      | tsTypeLit members =>
        simp only [tsTypeToJsonSchema, Option.some.injEq] at h
        subst h
        exact ih2 members
      | tsIndexed objName idxLit =>
        simp only [tsTypeToJsonSchema] at h
        split at h
        · split at h
          · rename_i heq
            injection h with h
            subst h
            exact eventKey_no_default _ _ heq
          · injection h with h
            subst h
            rfl
        · injection h with h
          subst h
          rfl
      | tsRef name =>
        simp only [tsTypeToJsonSchema] at h
        split at h
        · injection h with h
          subst h
          rfl
        · split at h
          · rename_i heq
            injection h with h
            subst h
            exact ih3 _ _ heq
          · injection h with h
            subst h
            rfl
    · intro members
      apply propsNoDefault_mk
      · show (objectTypeToJsonSchema sl prog (fuel + 1) members).lookup
          "default" = none
        simp only [objectTypeToJsonSchema]
        split
        · rfl
        · rfl
      · intro p hp
        refine objstep_all_none sl prog fuel
          (fun t j h => propsNoDefault_top (ih1 t j h)) members ([], [])
          (by intro q hq; cases hq) p ?_
        have hps : schemaProps (objectTypeToJsonSchema sl prog (fuel + 1)
            members) = (members.foldl (fun (acc : List (String × Json) × List String) m =>
          match m with
          | .propSig key optional ty line =>
            (match (match key with
                    | .ik n => some n
                    | .sk s => some s
                    | .otherK => none) with
             | none => acc
             | some keyName =>
               let propSchema : Json :=
                 match ty with
                 | some tnode => (tsTypeToJsonSchema sl prog fuel tnode).getD (.obj [])
                 | none => .obj []
               let propSchema :=
                 match extractCommentForNode sl line with
                 | some d => objSpreadSet propSchema "description" (.str d)
                 | none => propSchema
               ((jsObjSet acc.1 keyName propSchema),
                if optional then acc.2 else acc.2 ++ [keyName]))
          | .otherM => acc) ([], [])).1 := by
          simp only [objectTypeToJsonSchema]
          split
          · rfl
          · rfl
        rw [hps] at hp
        exact hp
    · intro n j h
      simp only [resolveTypeNameToJson] at h
      rcases List.exists_of_findSome?_eq_some h with ⟨stmt, hmem, hstmt⟩
      cases stmt
      case ifaceS e iname members l r =>
        simp only at hstmt
        split at hstmt
        · injection hstmt with hstmt
          subst hstmt
          exact ih2 members
        · exact Option.noConfusion hstmt
      case aliasS e aname ty l r =>
        simp only at hstmt
        split at hstmt
        · injection hstmt with hstmt
          subst hstmt
          cases ht : tsTypeToJsonSchema sl prog fuel ty with
          | none => simp [ht]; rfl
          | some s => simpa [ht] using ih1 ty s ht
        · exact Option.noConfusion hstmt
      all_goals exact Option.noConfusion hstmt

end BubbleLab

namespace BubbleLab

theorem addDefaults_nodup : ∀ (props : List DProp)
    (acc : List (String × Json)), (acc.map (·.1)).Nodup →
    ((addDefaultsFromPat props acc).map (·.1)).Nodup := by
  intro props
  induction props with
  | nil => intro acc h; exact h
  | cons p rest ih =>
    intro acc h
    show ((addDefaultsFromPat rest _).map (·.1)).Nodup
    apply ih
    cases p with
    | dplain key => exact h
    | dOther => exact h
    | dprop key deflt =>
      cases key with
      | otherK => exact h
      | ik n =>
        cases hv : evaluateDefaultExpressionToJSON deflt with
        | none => simpa [hv] using h
        | some v =>
          simp only [hv]
          by_cases hany : acc.any (fun kv => kv.1 = n) = true
          · simpa [hany] using h
          · have hnotin : n ∉ acc.map (·.1) := by
              intro hmem
              rcases List.mem_map.mp hmem with ⟨y, hy, hyn⟩
              exact hany (List.any_eq_true.mpr ⟨y, hy, by simpa using hyn⟩)
            simp only [Bool.not_eq_true] at hany
            simp only [hany]
            simpa [List.nodup_append] using
              ⟨h, fun x hx => hnotin (List.mem_map.mpr ⟨_, hx, rfl⟩)⟩
      | sk s =>
        cases hv : evaluateDefaultExpressionToJSON deflt with
        | none => simpa [hv] using h
        | some v =>
          simp only [hv]
          by_cases hany : acc.any (fun kv => kv.1 = s) = true
          · simpa [hany] using h
          · have hnotin : s ∉ acc.map (·.1) := by
              intro hmem
              rcases List.mem_map.mp hmem with ⟨y, hy, hyn⟩
              exact hany (List.any_eq_true.mpr ⟨y, hy, by simpa using hyn⟩)
            simp only [Bool.not_eq_true] at hany
            simp only [hany]
            simpa [List.nodup_append] using
              ⟨h, fun x hx => hnotin (List.mem_map.mpr ⟨_, hx, rfl⟩)⟩

end BubbleLab

namespace BubbleLab

theorem declfold_nodup (paramName : String) : ∀ (decls : List Declarator)
    (acc : List (String × Json)), (acc.map (·.1)).Nodup →
    ((decls.foldl (fun acc d =>
      match d with
      | .mk (.objectP props) (some (.ident n)) =>
        if n = paramName then addDefaultsFromPat props acc else acc
      | _ => acc) acc).map (·.1)).Nodup := by
  intro decls
  induction decls with
  | nil => exact fun acc h => h
  | cons d rest ih =>
    intro acc h
    rw [List.foldl_cons]
    apply ih
    rcases d with ⟨pat, init⟩
    cases init with
    | none => cases pat <;> exact h
    | some e =>
      cases pat with
      | identP n => cases e <;> exact h
      | otherP => cases e <;> exact h
      | objectP props =>
        cases e <;> try exact h
        case ident n =>
          show ((if n = paramName then addDefaultsFromPat props acc
              else acc).map (·.1)).Nodup
          split
          · exact addDefaults_nodup props acc h
          · exact h

theorem stmtfold_nodup (paramName : String) : ∀ (stmts : List Stmt)
    (acc : List (String × Json)), (acc.map (·.1)).Nodup →
    ((stmts.foldl (fun acc stmt =>
      match stmt with
      | .varDecl decls _ _ =>
        decls.foldl (fun acc d =>
          match d with
          | .mk (.objectP props) (some (.ident n)) =>
            if n = paramName then addDefaultsFromPat props acc else acc
          | _ => acc) acc
      | _ => acc) acc).map (·.1)).Nodup := by
  intro stmts
  induction stmts with
  | nil => exact fun acc h => h
  | cons st rest ih =>
    intro acc h
    rw [List.foldl_cons]
    apply ih
    cases st <;> try exact h
    case varDecl decls l r => exact declfold_nodup paramName decls acc h

theorem extractPayloadDefaults_nodup (hfn : HandleFn) :
    ((extractPayloadDefaultsFromHandle hfn).map (·.1)).Nodup := by
  unfold extractPayloadDefaultsFromHandle
  cases hp : hfn.params with
  | nil => simp only [hp]; exact List.nodup_nil
  | cons p ps =>
    simp only [hp]
    cases hg : getFirstParamIdentifierName p with
    | none => simp only [hg]; exact List.nodup_nil
    | some paramName =>
      simp only [hg]
      cases hb : hfn.body with
      | none => simp only [hb]; exact List.nodup_nil
      | some stmts =>
        simp only [hb]
        exact stmtfold_nodup paramName stmts [] List.nodup_nil

theorem merge_fold_mem : ∀ (defaults : List (String × Json))
    (props : List (String × Json)), ((defaults.map (·.1)).Nodup) →
    ∀ (k : String) (sk : Json), (k, sk) ∈ defaults.foldl (fun ps kv =>
        if ps.any (fun f => f.1 = kv.1) then
          ps.map (fun f =>
            if f.1 = kv.1 then (kv.1, objSpreadSet f.2 "default" kv.2) else f)
        else ps) props →
      ∃ sk0, (k, sk0) ∈ props ∧
        ((defaults.find? (fun q => q.1 = k) = none ∧ sk = sk0) ∨
         (∃ v, defaults.find? (fun q => q.1 = k) = some (k, v) ∧
           sk = objSpreadSet sk0 "default" v)) := by
  intro defaults
  induction defaults with
  | nil =>
    intro props _ k sk hx
    exact ⟨sk, hx, Or.inl ⟨rfl, rfl⟩⟩
  | cons kv rest ih =>
    intro props hnd k sk hx
    rw [List.foldl_cons] at hx
    have hnd' : ((rest.map (·.1)).Nodup) := (List.nodup_cons.mp hnd).2
    have hkv : kv.1 ∉ rest.map (·.1) := (List.nodup_cons.mp hnd).1
    rcases ih _ hnd' k sk hx with ⟨sk1, hsk1, hbranch⟩
    by_cases hany : props.any (fun f => f.1 = kv.1) = true
    · rw [if_pos hany] at hsk1
      rcases List.mem_map.mp hsk1 with ⟨y, hy, hxy⟩
      by_cases hyk : y.1 = kv.1
      · rw [if_pos hyk] at hxy
        injection hxy with h1 h2
        have hrestnone : rest.find? (fun q => q.1 = k) = none := by
          rw [List.find?_eq_none]
          intro q hq
          simp only [decide_eq_true_eq]
          intro hq1
          exact hkv (h1 ▸ hq1 ▸ List.mem_map.mpr ⟨q, hq, rfl⟩)
        rcases hbranch with ⟨_, hx2⟩ | ⟨v, hfind, _⟩
        · refine ⟨y.2, ?_, Or.inr ⟨kv.2, ?_, ?_⟩⟩
          · have hyp : (k, y.2) = y := by
              rw [← h1, ← hyk]
            rw [hyp]
            exact hy
          · rw [show List.find? (fun q : String × Json => decide (q.1 = k))
                  (kv :: rest) = some kv from
                List.find?_cons_of_pos _ (decide_eq_true h1)]
            rw [show kv = (k, kv.2) by rw [← h1]]
          · rw [hx2, ← h2]
        · rw [hrestnone] at hfind
          exact Option.noConfusion hfind
      · rw [if_neg hyk] at hxy
        refine ⟨sk1, hxy ▸ hy, ?_⟩
        have hkne : ¬ ((fun q : String × Json => decide (q.1 = k)) kv = true) := by
          intro hdec
          have heq : kv.1 = k := of_decide_eq_true hdec
          rw [hxy] at hyk
          exact hyk heq.symm
        rw [show List.find? (fun q : String × Json => decide (q.1 = k))
              (kv :: rest) = List.find? (fun q => decide (q.1 = k)) rest from
            List.find?_cons_of_neg _ hkne]
        exact hbranch
    · rw [if_neg hany] at hsk1
      have hkne : ¬ ((fun q : String × Json => decide (q.1 = k)) kv = true) := by
        intro hdec
        have heq : kv.1 = k := of_decide_eq_true hdec
        exact hany (List.any_eq_true.mpr ⟨(k, sk1), hsk1, by simpa using heq.symm⟩)
      refine ⟨sk1, hsk1, ?_⟩
      rw [show List.find? (fun q : String × Json => decide (q.1 = k))
            (kv :: rest) = List.find? (fun q => decide (q.1 = k)) rest from
          List.find?_cons_of_neg _ hkne]
      exact hbranch

end BubbleLab

namespace BubbleLab

theorem schemaProps_obj_of_find (fields : List (String × Json))
    (props : List (String × Json))
    (h : (fields.find? (fun f => f.1 = "properties")).map (·.2) =
      some (Json.obj props)) : schemaProps (Json.obj fields) = props := by
  simp only [schemaProps]
  rw [h]

theorem c7_main_aux (sl : List String) (fuel : Nat) (prog : Program)
    (hd : HandleFn) (t : TypeNode) (k : String) (sk : Json)
    (heqH : findHandleFunctionNode prog = some hd)
    (hmem : (k, sk) ∈ schemaProps (mergeDefaults
      ((tsTypeToJsonSchema sl prog fuel t).getD (.obj []))
      (extractPayloadDefaultsFromHandle hd))) :
    sk.lookup "default" =
      ((payloadDefaultsOf prog).find? (fun q => q.1 = k)).map (·.2) := by
  unfold payloadDefaultsOf
  simp only [heqH]
  have hnodup := extractPayloadDefaults_nodup hd
  unfold mergeDefaults at hmem
  split at hmem
  · rename_i hempty
    have hdefnil : extractPayloadDefaultsFromHandle hd = [] := by
      simpa using hempty
    rw [hdefnil]
    cases hts : tsTypeToJsonSchema sl prog fuel t with
    | none =>
      rw [hts] at hmem
      exact absurd hmem (List.not_mem_nil _)
    | some j =>
      rw [hts] at hmem
      have := propsNoDefault_mem ((schema_no_default sl prog fuel).1 t j hts)
        (k, sk) hmem
      rw [this]
      rfl
  · split at hmem
    · rename_i junkJ fields heqS
      split at hmem
      · rename_i junkC props heqF
        have hmem2 : (k, sk) ∈ schemaProps (Json.obj (fields.map (fun f =>
            if f.1 = "properties" then ("properties",
              Json.obj (List.foldl (fun ps kv =>
                if ps.any (fun f => f.1 = kv.1) then
                  ps.map (fun f =>
                    if f.1 = kv.1 then (kv.1, objSpreadSet f.2 "default" kv.2)
                    else f)
                else ps) props (extractPayloadDefaultsFromHandle hd)))
            else f))) := hmem
        rcases Option.map_eq_some'.mp heqF with ⟨q, hqfind, hq2⟩
        have hq1 : q.1 = "properties" := by
          simpa using List.find?_some hqfind
        have hfindm := find?_map_keyrep_eq "properties"
          ("properties", Json.obj (List.foldl (fun ps kv =>
            if ps.any (fun f => f.1 = kv.1) then
              ps.map (fun f =>
                if f.1 = kv.1 then (kv.1, objSpreadSet f.2 "default" kv.2)
                else f)
            else ps) props (extractPayloadDefaultsFromHandle hd))) rfl fields
          ⟨q, List.mem_of_find?_eq_some hqfind, hq1⟩
        rw [schemaProps_obj_of_find _ _ (by rw [hfindm]; rfl)] at hmem2
        rcases merge_fold_mem (extractPayloadDefaultsFromHandle hd) props
          hnodup k sk hmem2 with ⟨sk0, hsk0mem, hbr⟩
        have hsk0none : sk0.lookup "default" = none := by
          cases hts : tsTypeToJsonSchema sl prog fuel t with
          | none =>
            rw [hts] at heqS
            simp only [Option.getD_none] at heqS
            injection heqS with hfe
            subst hfe
            simp at heqF
          | some j =>
            have hj : j = Json.obj fields := by
              rw [hts] at heqS
              simpa using heqS
            have hjp : schemaProps j = props := by
              rw [hj]
              exact schemaProps_obj_of_find fields props heqF
            have := propsNoDefault_mem
              ((schema_no_default sl prog fuel).1 t j hts) (k, sk0)
              (by rw [hjp]; exact hsk0mem)
            exact this
        rcases hbr with ⟨hfindnone, hskeq⟩ | ⟨v, hfind, hskeq⟩
        · rw [hfindnone, hskeq]
          exact hsk0none
        · rw [hfind, hskeq]
          simpa using lookup_objSpreadSet_self sk0 "default" v
      · rename_i junkC hnoprops
        exfalso
        rw [heqS] at hmem
        cases hX : (fields.find? (fun f => f.1 = "properties")).map (·.2) with
        | none =>
          simp only [schemaProps, hX] at hmem
          exact absurd hmem (List.not_mem_nil _)
        | some j =>
          cases j with
          | obj props => exact hnoprops props hX
          | null =>
            simp only [schemaProps, hX] at hmem
            exact absurd hmem (List.not_mem_nil _)
          | bool b =>
            simp only [schemaProps, hX] at hmem
            exact absurd hmem (List.not_mem_nil _)
          | num n =>
            simp only [schemaProps, hX] at hmem
            exact absurd hmem (List.not_mem_nil _)
          | str s =>
            simp only [schemaProps, hX] at hmem
            exact absurd hmem (List.not_mem_nil _)
          | arr a =>
            simp only [schemaProps, hX] at hmem
            exact absurd hmem (List.not_mem_nil _)
    · rename_i junkB hnofields
      exfalso
      cases hS : (tsTypeToJsonSchema sl prog fuel t).getD (Json.obj []) with
      | obj fields => exact hnofields fields hS
      | null =>
        rw [hS] at hmem
        exact absurd hmem (List.not_mem_nil _)
      | bool b =>
        rw [hS] at hmem
        exact absurd hmem (List.not_mem_nil _)
      | num n =>
        rw [hS] at hmem
        exact absurd hmem (List.not_mem_nil _)
      | str s =>
        rw [hS] at hmem
        exact absurd hmem (List.not_mem_nil _)
      | arr a =>
        rw [hS] at hmem
        exact absurd hmem (List.not_mem_nil _)

end BubbleLab

namespace BubbleLab

/-- Claim C7: in the inferred payload schema, a property carries a `default` exactly when the handle body's top-level destructuring of the handle parameter gives that property a statically evaluable default, and the value is that evaluated default; properties without such a default have no `default` key. -/
theorem c7_payload_defaults (sl : List String) (fuel : Nat) (prog : Program)
    (schema : Json) (k : String) (sk : Json)
    (hschema : getPayloadJsonSchema sl fuel prog = some schema)
    (hmem : (k, sk) ∈ schemaProps schema) :
    sk.lookup "default" =
      ((payloadDefaultsOf prog).find? (fun q => q.1 = k)).map (·.2) := by
  unfold getPayloadJsonSchema at hschema
  split at hschema
  · exact Option.noConfusion hschema
  rename_i hd heqH
  split at hschema
  · exact Option.noConfusion hschema
  rename_i p ps heqP
  split at hschema
  all_goals
    first
      | (injection hschema with hschema
         subst hschema
         exact absurd hmem (List.not_mem_nil _))
      | (rename_i ty
         cases ty with
         | none =>
           injection hschema with hschema
           subst hschema
           exact absurd hmem (List.not_mem_nil _)
         | some t =>
           injection hschema with hschema
           subst hschema
           exact c7_main_aux sl fuel prog hd t k sk heqH hmem)

end BubbleLab

namespace BubbleLab

/-- Claim C7 witness: in `c7Prog`, the `industry` property carries default `"general"` and the `topic` property carries none. -/
theorem c7_payload_defaults_witness :
    Json.lookup c7IndustryProp "default" =
      ((payloadDefaultsOf c7Prog).find? (fun q => q.1 = "industry")).map
        (·.2) ∧
    Json.lookup c7TopicProp "default" =
      ((payloadDefaultsOf c7Prog).find? (fun q => q.1 = "topic")).map (·.2) :=
  ⟨c7_payload_defaults [] 10 c7Prog
      ((getPayloadJsonSchema [] 10 c7Prog).getD .null) "industry"
      c7IndustryProp (by rfl) (List.Mem.head _),
   c7_payload_defaults [] 10 c7Prog
      ((getPayloadJsonSchema [] 10 c7Prog).getD .null) "topic"
      c7TopicProp (by rfl) (List.Mem.tail _ (List.Mem.tail _ (List.Mem.head _)))⟩

end BubbleLab

namespace BubbleLab

theorem upsert_mem {nodes : List (Int × ParsedBubble)} {key : Int}
    {b : ParsedBubble} {x : Int × ParsedBubble} (h : x ∈ upsert nodes key b) :
    x ∈ nodes ∨ x = (key, b) := by
  unfold upsert at h
  split at h
  · rcases List.mem_map.mp h with ⟨y, hy, hxy⟩
    by_cases hk : y.1 = key
    · right
      rw [← hxy, if_pos hk]
    · left
      rw [← hxy, if_neg hk]
      exact hy
  · rcases List.mem_append.mp h with h | h
    · exact Or.inl h
    · right
      simpa using h

theorem insertAnonymousBubble_inv (ctx : VisitCtx) (bn : ParsedBubble)
    (line : Nat) (wd : Bool) (nodes : List (Int × ParsedBubble))
    (hinv : ∀ kb ∈ nodes, kb.2.variableId = kb.1) :
    ∀ kb ∈ insertAnonymousBubble ctx bn line wd nodes,
      kb.2.variableId = kb.1 := by
  intro kb hkb
  rcases upsert_mem hkb with h | h
  · exact hinv kb h
  · rw [h]

theorem visitDecls_inv (ctx : VisitCtx) (loc : Loc) :
    ∀ (decls : List Declarator) (nodes nodes' : List (Int × ParsedBubble)),
    (∀ kb ∈ nodes, kb.2.variableId = kb.1) →
    visitDecls ctx loc decls nodes = .ok nodes' →
    ∀ kb ∈ nodes', kb.2.variableId = kb.1 := by
  intro decls
  induction decls with
  | nil =>
    intro nodes nodes' hinv h
    injection h with h
    subst h
    exact hinv
  | cons d rest ih =>
    intro nodes nodes' hinv h
    rcases d with ⟨pid, ini⟩
    cases pid with
    | objectP props => exact ih nodes nodes' hinv h
    | otherP => exact ih nodes nodes' hinv h
    | identP nameText =>
      cases ini with
      | none => exact ih nodes nodes' hinv h
      | some ini =>
        simp only [visitDecls] at h
        split at h
        · split at h
          · rename_i bn heqE v heqV
            refine ih _ nodes' ?_ h
            intro kb hkb
            rcases upsert_mem hkb with hk | hk
            · exact hinv kb hk
            · rw [hk]
          · exact Except.noConfusion h
        · exact ih nodes nodes' hinv h

theorem visitOne_inv (ctx : VisitCtx) (n : ANode)
    (nodes nodes' : List (Int × ParsedBubble))
    (hinv : ∀ kb ∈ nodes, kb.2.variableId = kb.1)
    (h : visitOne ctx n nodes = .ok nodes') :
    ∀ kb ∈ nodes', kb.2.variableId = kb.1 := by
  cases n with
  | stmtN s =>
    cases s <;> try (injection h with h; subst h; exact hinv)
    case varDecl decls loc raw =>
      exact visitDecls_inv ctx loc decls nodes nodes' hinv h
    case exprStmt e loc raw =>
      simp only [visitOne] at h
      split at h
      · injection h with h
        subst h
        exact insertAnonymousBubble_inv ctx _ loc.startLine true nodes hinv
      · injection h with h
        subst h
        exact hinv
    case retStmt arg loc raw =>
      cases arg with
      | none =>
        injection h with h
        subst h
        exact hinv
      | some a =>
        simp only [visitOne] at h
        split at h
        · injection h with h
          subst h
          exact insertAnonymousBubble_inv ctx _ loc.startLine true nodes hinv
        · injection h with h
          subst h
          exact hinv
  | exprN e =>
    cases e <;> try (injection h with h; subst h; exact hinv)
    case arrowE params body loc raw =>
      cases body with
      | block stmts =>
        injection h with h
        subst h
        exact hinv
      | concise ce =>
        simp only [visitOne] at h
        split at h
        · injection h with h
          subst h
          exact insertAnonymousBubble_inv ctx _ loc.startLine false nodes hinv
        · injection h with h
          subst h
          exact hinv

theorem visitList_inv (ctx : VisitCtx) : ∀ (fuel : Nat) (work : List ANode)
    (nodes nodes' : List (Int × ParsedBubble)),
    (∀ kb ∈ nodes, kb.2.variableId = kb.1) →
    visitList ctx fuel work nodes = .ok nodes' →
    ∀ kb ∈ nodes', kb.2.variableId = kb.1 := by
  intro fuel
  induction fuel with
  | zero =>
    intro work nodes nodes' hinv h
    cases work with
    | nil =>
      injection h with h
      subst h
      exact hinv
    | cons n rest => exact Except.noConfusion h
  | succ fuel ih =>
    intro work nodes nodes' hinv h
    cases work with
    | nil =>
      injection h with h
      subst h
      exact hinv
    | cons n rest =>
      simp only [visitList] at h
      split at h
      · rename_i nodes1 heq1
        exact ih _ nodes1 nodes' (visitOne_inv ctx n nodes nodes1 hinv heq1) h
      · exact Except.noConfusion h

theorem visitProgram_inv (ctx : VisitCtx) (fuel : Nat) (prog : Program)
    (nodes : List (Int × ParsedBubble))
    (h : visitProgram ctx fuel prog = .ok nodes) :
    ∀ kb ∈ nodes, kb.2.variableId = kb.1 :=
  visitList_inv ctx fuel (prog.body.map .stmtN) [] nodes
    (by intro kb hkb; cases hkb) h

end BubbleLab

namespace BubbleLab

theorem insertAsc_mem {kb x : Int × ParsedBubble} :
    ∀ {l : List (Int × ParsedBubble)}, x ∈ insertAsc kb l → x = kb ∨ x ∈ l := by
  intro l
  induction l with
  | nil =>
    intro h
    simp only [insertAsc, List.mem_singleton] at h
    exact Or.inl h
  | cons kb2 rest ih =>
    intro h
    unfold insertAsc at h
    split at h
    · rcases List.mem_cons.mp h with h | h
      · exact Or.inl h
      · exact Or.inr h
    · rcases List.mem_cons.mp h with h | h
      · exact Or.inr (List.mem_cons.mpr (Or.inl h))
      · rcases ih h with h | h
        · exact Or.inl h
        · exact Or.inr (List.mem_cons.mpr (Or.inr h))

theorem sortAscByKey_mem {x : Int × ParsedBubble} :
    ∀ {l : List (Int × ParsedBubble)}, x ∈ sortAscByKey l → x ∈ l := by
  intro l
  induction l with
  | nil => intro h; exact absurd h (List.not_mem_nil _)
  | cons kb rest ih =>
    intro h
    unfold sortAscByKey at h
    rcases insertAsc_mem h with h | h
    · exact List.mem_cons.mpr (Or.inl h)
    · exact List.mem_cons.mpr (Or.inr (ih h))

theorem entriesJS_mem {x : Int × ParsedBubble}
    {nodes : List (Int × ParsedBubble)} (h : x ∈ entriesJS nodes) :
    x ∈ nodes := by
  unfold entriesJS at h
  rcases List.mem_append.mp h with h | h
  · exact List.mem_of_mem_filter (sortAscByKey_mem h)
  · exact List.mem_of_mem_filter h

theorem findBubbleInExpression_sub {e : Expr}
    {bm : List (Int × ParsedBubble)} {b : ParsedBubble}
    (hinv : ∀ kb ∈ bm, kb.2.variableId = kb.1)
    (h : findBubbleInExpression e bm = some b) :
    b.variableId ∈ bm.map (·.1) := by
  unfold findBubbleInExpression at h
  split at h
  · exact Option.noConfusion h
  · rcases Option.map_eq_some'.mp h with ⟨kb, hfind, hkb2⟩
    have hkbmem := List.mem_of_find?_eq_some hfind
    refine List.mem_map.mpr ⟨kb, hkbmem, ?_⟩
    rw [← hkb2]
    exact (hinv kb hkbmem).symm

theorem findBubbleForDecls_sub {bm : List (Int × ParsedBubble)}
    (hinv : ∀ kb ∈ bm, kb.2.variableId = kb.1) :
    ∀ (decls : List Declarator) (vid : Int),
      findBubbleForDecls decls bm = some vid → vid ∈ bm.map (·.1) := by
  intro decls
  induction decls with
  | nil => intro vid h; exact Option.noConfusion h
  | cons d rest ih =>
    intro vid h
    rcases d with ⟨pid, ini⟩
    cases pid with
    | objectP props => exact ih vid h
    | otherP => exact ih vid h
    | identP nameText =>
      cases ini with
      | none => exact ih vid h
      | some ini =>
        simp only [findBubbleForDecls] at h
        split at h
        · rename_i kb hfind
          injection h with h
          subst h
          have hkbmem := List.mem_of_find?_eq_some hfind
          refine List.mem_map.mpr ⟨kb, hkbmem, ?_⟩
          exact (hinv kb hkbmem).symm
        · split at h
          · rename_i b hfb
            injection h with h
            subst h
            exact findBubbleInExpression_sub hinv hfb
          · exact ih vid h

theorem buildWorkflowNode_sub (bm : List (Int × ParsedBubble))
    (hinv : ∀ kb ∈ bm, kb.2.variableId = kb.1) :
    ∀ (fuel : Nat) (stmt : Stmt) (w : WorkflowNode),
      buildWorkflowNode fuel stmt bm = some w →
      ∀ id ∈ collectWorkflowIds w, id ∈ bm.map (·.1) := by
  intro fuel
  induction fuel with
  | zero => intro stmt w h; exact Option.noConfusion h
  | succ fuel ih =>
    have ihList : ∀ (l : List Stmt) (id : Int),
        id ∈ collectIdsList (l.filterMap fun s => buildWorkflowNode fuel s bm) →
        id ∈ bm.map (·.1) := by
      intro l
      induction l with
      | nil => intro id hid; exact absurd hid (List.not_mem_nil _)
      | cons s rest ihl =>
        intro id hid
        rw [List.filterMap_cons] at hid
        cases hb : buildWorkflowNode fuel s bm with
        | none =>
          rw [hb] at hid
          exact ihl id hid
        | some w' =>
          rw [hb] at hid
          rw [collectIdsList.eq_def] at hid
          rcases List.mem_append.mp hid with hid | hid
          · exact ih s w' hb id hid
          · exact ihl id hid
    have ihOpt : ∀ (s : Stmt) (id : Int),
        id ∈ collectIdsList (buildWorkflowNode fuel s bm).toList →
        id ∈ bm.map (·.1) := by
      intro s id hid
      cases hb : buildWorkflowNode fuel s bm with
      | none =>
        rw [hb] at hid
        rw [collectIdsList.eq_def] at hid
        exact absurd hid (List.not_mem_nil _)
      | some w' =>
        rw [hb] at hid
        rw [collectIdsList.eq_def] at hid
        rcases List.mem_append.mp hid with hid | hid
        · exact ih s w' hb id hid
        · rw [collectIdsList.eq_def] at hid
          exact absurd hid (List.not_mem_nil _)
    intro stmt w h
    cases stmt with
    | ifS test cons alt loc raw =>
      simp only [buildWorkflowNode] at h
      injection h with h
      subst h
      intro id hid
      rw [collectWorkflowIds.eq_def] at hid
      rcases List.mem_append.mp hid with hid | hid
      · cases cons <;>
          first
            | exact ihList _ id hid
            | exact ihOpt _ id hid
      · cases alt with
        | none => exact absurd hid (List.not_mem_nil _)
        | some s =>
          cases s <;>
            first
              | exact ihList _ id hid
              | exact ihOpt _ id hid
    | forS i t u body loc raw =>
      simp only [buildWorkflowNode] at h
      injection h with h
      subst h
      intro id hid
      rw [collectWorkflowIds.eq_def] at hid
      cases body <;>
        first
          | exact ihList _ id hid
          | exact ihOpt _ id hid
    | forInS leftRaw right body loc raw =>
      simp only [buildWorkflowNode] at h
      injection h with h
      subst h
      intro id hid
      rw [collectWorkflowIds.eq_def] at hid
      cases body <;>
        first
          | exact ihList _ id hid
          | exact ihOpt _ id hid
    | forOfS leftRaw right body loc raw =>
      simp only [buildWorkflowNode] at h
      injection h with h
      subst h
      intro id hid
      rw [collectWorkflowIds.eq_def] at hid
      cases body <;>
        first
          | exact ihList _ id hid
          | exact ihOpt _ id hid
    | whileS test body loc raw =>
      simp only [buildWorkflowNode] at h
      injection h with h
      subst h
      intro id hid
      rw [collectWorkflowIds.eq_def] at hid
      cases body <;>
        first
          | exact ihList _ id hid
          | exact ihOpt _ id hid
    | tryS blk handler loc raw =>
      simp only [buildWorkflowNode] at h
      injection h with h
      subst h
      intro id hid
      rw [collectWorkflowIds.eq_def] at hid
      rcases List.mem_append.mp hid with hid | hid
      · exact ihList _ id hid
      · cases handler with
        | none => exact absurd hid (List.not_mem_nil _)
        | some hl => exact ihList _ id hid
    | varDecl decls loc raw =>
      simp only [buildWorkflowNode] at h
      split at h
      · rename_i vid heqF
        injection h with h
        subst h
        intro id hid
        rw [collectWorkflowIds.eq_def] at hid
        have hid := List.mem_singleton.mp hid
        subst hid
        exact findBubbleForDecls_sub hinv decls id heqF
      · injection h with h
        subst h
        intro id hid
        rw [collectWorkflowIds.eq_def] at hid
        exact absurd hid (List.not_mem_nil _)
    | exprStmt e loc raw =>
      simp only [buildWorkflowNode] at h
      split at h
      · rename_i b heqF
        injection h with h
        subst h
        intro id hid
        rw [collectWorkflowIds.eq_def] at hid
        have hid := List.mem_singleton.mp hid
        subst hid
        exact findBubbleInExpression_sub hinv heqF
      · injection h with h
        subst h
        intro id hid
        rw [collectWorkflowIds.eq_def] at hid
        exact absurd hid (List.not_mem_nil _)
    | retStmt arg loc raw =>
      simp only [buildWorkflowNode] at h
      split at h
      · rename_i b heqF
        rcases Option.bind_eq_some.mp heqF with ⟨a, harg, hfb⟩
        injection h with h
        subst h
        intro id hid
        rw [collectWorkflowIds.eq_def] at hid
        have hid := List.mem_singleton.mp hid
        subst hid
        exact findBubbleInExpression_sub hinv hfb
      · injection h with h
        subst h
        intro id hid
        rw [collectWorkflowIds.eq_def] at hid
        exact absurd hid (List.not_mem_nil _)
    | blockS body loc raw =>
      simp only [buildWorkflowNode] at h
      injection h with h
      subst h
      intro id hid
      rw [collectWorkflowIds.eq_def] at hid
      exact ihList _ id hid
    | classS a b c d e f g =>
      simp only [buildWorkflowNode] at h
      injection h with h
      subst h
      intro id hid
      simp only [collectWorkflowIds, collectIdsList] at hid
      exact absurd hid (List.not_mem_nil _)
    | funcS a b c d e f =>
      simp only [buildWorkflowNode] at h
      injection h with h
      subst h
      intro id hid
      simp only [collectWorkflowIds, collectIdsList] at hid
      exact absurd hid (List.not_mem_nil _)
    | ifaceS a b c d e =>
      simp only [buildWorkflowNode] at h
      injection h with h
      subst h
      intro id hid
      simp only [collectWorkflowIds, collectIdsList] at hid
      exact absurd hid (List.not_mem_nil _)
    | aliasS a b c d e =>
      simp only [buildWorkflowNode] at h
      injection h with h
      subst h
      intro id hid
      simp only [collectWorkflowIds, collectIdsList] at hid
      exact absurd hid (List.not_mem_nil _)
    | otherS a b c =>
      simp only [buildWorkflowNode] at h
      injection h with h
      subst h
      intro id hid
      simp only [collectWorkflowIds, collectIdsList] at hid
      exact absurd hid (List.not_mem_nil _)

end BubbleLab

namespace BubbleLab

theorem collectIds_filterMap_sub (bm : List (Int × ParsedBubble))
    (hinv : ∀ kb ∈ bm, kb.2.variableId = kb.1) (fuel : Nat) :
    ∀ (l : List Stmt) (id : Int),
      id ∈ collectIdsList (l.filterMap fun s => buildWorkflowNode fuel s bm) →
      id ∈ bm.map (·.1) := by
  intro l
  induction l with
  | nil => intro id hid; exact absurd hid (List.not_mem_nil _)
  | cons s rest ihl =>
    intro id hid
    rw [List.filterMap_cons] at hid
    cases hb : buildWorkflowNode fuel s bm with
    | none =>
      rw [hb] at hid
      exact ihl id hid
    | some w' =>
      rw [hb] at hid
      rw [collectIdsList.eq_def] at hid
      rcases List.mem_append.mp hid with hid | hid
      · exact buildWorkflowNode_sub bm hinv fuel s w' hb id hid
      · exact ihl id hid

/-- Claim C1 (amended): every `variableId` referenced by a `bubble` leaf of the workflow tree is a key of the bubble map returned by the same parse (no dangling references). The converse inclusion fails: a located bubble outside the `handle` body never appears in the tree, see the counterexample. -/
theorem c1_tree_ids_subset_map (ctx : VisitCtx) (fuel fuel2 : Nat)
    (prog : Program) (nodes : List (Int × ParsedBubble))
    (h : visitProgram ctx fuel prog = .ok nodes) :
    ∀ id ∈ collectIdsList (buildWorkflowRoot fuel2 prog nodes),
      id ∈ nodes.map (·.1) := by
  intro id hid
  have hinv := visitProgram_inv ctx fuel prog nodes h
  have hinvE : ∀ kb ∈ entriesJS nodes, kb.2.variableId = kb.1 :=
    fun kb hkb => hinv kb (entriesJS_mem hkb)
  unfold buildWorkflowRoot at hid
  split at hid
  · split at hid
    · have hkey := collectIds_filterMap_sub (entriesJS nodes) hinvE fuel2 _
        id hid
      rcases List.mem_map.mp hkey with ⟨kb, hkb, hkb1⟩
      exact List.mem_map.mpr ⟨kb, entriesJS_mem hkb, hkb1⟩
    · exact absurd hid (List.not_mem_nil _)
  · exact absurd hid (List.not_mem_nil _)

/-- Claim C1 counterexample: `c1Prog` locates one bubble (map key `-1`) inside a helper method, but the workflow tree built from `handle` collects no bubble ids, so the collected id set is not the key set. -/
theorem c1_tree_ids_counterexample :
    (visitProgram c1Ctx 20 c1Prog).toOption.map (fun nodes =>
      (nodes.map (·.1),
        collectIdsList (buildWorkflowRoot 20 c1Prog nodes))) =
      some ([-1], []) := rfl

/-- Claim C1 witness: the tree of `c3bProg` references only the map key `-1`. -/
theorem c1_tree_ids_subset_map_witness :
    (-1 : Int) ∈ [((-1 : Int), c3bBubble)].map (·.1) :=
  c1_tree_ids_subset_map c3bCtx 20 20 c3bProg [(-1, c3bBubble)] (by rfl)
    (-1) (by decide)

/-- Claim C3 (amended): every anonymous bubble insertion assigns the negative synthetic id `-(current map size + 1)`; in particular a script whose only bubble is `await new X({...}).action();` yields the single bubble id `-1` with `hasAwait` and `hasActionCall` true. (The ids form `-1, -2, ...` only when no named bubble precedes, see the counterexample.) -/
theorem c3_anonymous_ids :
    (∀ (ctx : VisitCtx) (bn : ParsedBubble) (line : Nat) (wd : Bool)
        (nodes : List (Int × ParsedBubble)),
      ∃ bn', insertAnonymousBubble ctx bn line wd nodes =
          upsert nodes (-(Int.ofNat nodes.length + 1)) bn' ∧
        bn'.variableId = -(Int.ofNat nodes.length + 1) ∧
        bn'.variableId < 0) ∧
    (visitProgram c3bCtx 20 c3bProg = .ok [(-1, c3bBubble)] ∧
      c3bBubble.variableId = -1 ∧ c3bBubble.hasAwait = true ∧
      c3bBubble.hasActionCall = true) := by
  constructor
  · intro ctx bn line wd nodes
    refine ⟨_, rfl, rfl, ?_⟩
    show -(Int.ofNat nodes.length + 1) < 0
    have h0 : (0 : Int) ≤ Int.ofNat nodes.length := Int.ofNat_nonneg _
    omega
  · exact ⟨rfl, rfl, rfl, rfl⟩

/-- Claim C3 counterexample: with a named bubble (id 7) preceding, the first anonymous bubble receives id `-2`, not `-1`, refuting the unconditional `-1, -2, ...` sequence. -/
theorem c3_anonymous_ids_counterexample :
    (visitProgram c3aCtx 20 c3aProg).toOption.map (fun nodes =>
      nodes.map (fun kb => (kb.1, kb.2.variableId))) =
      some [(7, 7), (-2, -2)] := rfl

end BubbleLab
